import Mathlib

/-!
Verification of the per-cell update engine of `simulation.js`
(falling-sand / water / air-bubble cellular automaton).

The grid is a row-major list of rows of typed cells; coordinates are
integers `(x, y)` with `grid[y][x]` the JS access.  `Math.random()` is
modelled as drawing from an explicit stream of rationals (`Rng`).
Every raw grid read or write is an `Option`-valued operation that fails
on an out-of-range coordinate, so the engine's functions live in the
`Option` monad: a run that returns `some` performed no out-of-bounds
access.  Each assignment `newGrid[y][x] = v` of a rule invocation is
additionally recorded in a write log.
-/

/-- Particle types (`PARTICLE_TYPES` in the source). -/
inductive Cell where
  | empty
  | water
  | sandHeavy
  | sandMedium
  | sandLight
  | air
  deriving DecidableEq, Repr

open Cell

/-- `PARTICLE_DENSITY`: scalar densities used for ordering comparisons. -/
def density : Cell → ℕ
  | empty => 0
  | water => 1000
  | sandHeavy => 2500
  | sandMedium => 2200
  | sandLight => 1900
  | air => 1

/-- `SandPhysics.isSand`. -/
def isSand (c : Cell) : Bool :=
  c = sandHeavy ∨ c = sandMedium ∨ c = sandLight

/-- Exact rational values (random draws, frictions, slopes, ratios) as
unnormalised fractions with a nonnegative denominator; comparisons are
by cross-multiplication, which is the rational order whenever the
denominators are positive (they are, for every fraction the engine
builds). -/
structure Frac where
  num : ℤ
  den : ℕ
  deriving DecidableEq, Repr

/-- `a < b` on fractions, by cross-multiplication. -/
def Frac.ltB (a b : Frac) : Bool :=
  a.num * (b.den : ℤ) < b.num * (a.den : ℤ)

/-- `a ≤ b` on fractions, by cross-multiplication. -/
def Frac.leB (a b : Frac) : Bool :=
  a.num * (b.den : ℤ) ≤ b.num * (a.den : ℤ)

/-- Fraction multiplication (no normalisation needed for comparisons). -/
def Frac.mul (a b : Frac) : Frac :=
  ⟨a.num * b.num, a.den * b.den⟩

/-! Physics parameters used by the engine (`PHYSICS_PARAMS`). -/

def surfaceTensionFactor : Frac := ⟨2, 1⟩
def bubbleSearchRadius : ℤ := 3
def buoyancyProb : Frac := ⟨1, 4⟩
def spreadForceProb : Frac := ⟨1, 5⟩
def cohesionProb : Frac := ⟨1, 10⟩
def maxSlopeParam : Frac := ⟨7, 10⟩

/-- `Math.random()` stream: each call pops the next value. -/
abbrev Rng := List Frac

/-- One `Math.random()` call (an exhausted stream yields 0). -/
def draw : Rng → Frac × Rng
  | [] => (⟨0, 1⟩, [])
  | a :: t => (a, t)

abbrev Coord := ℤ × ℤ

abbrev Grid := List (List Cell)

/-- Read `grid[y][x]`; `none` when the coordinate is outside the grid. -/
def getCell (g : Grid) (x y : ℤ) : Option Cell :=
  if x < 0 ∨ y < 0 then none
  else match g[y.toNat]? with
    | none => none
    | some row => row[x.toNat]?

/-- Write `grid[y][x] = c`; `none` when the coordinate is outside the grid. -/
def setCell (g : Grid) (x y : ℤ) (c : Cell) : Option Grid :=
  if x < 0 ∨ y < 0 then none
  else match g[y.toNat]? with
    | none => none
    | some row =>
        if x.toNat < row.length then some (g.set y.toNat (row.set x.toNat c))
        else none

/-- The grid has exactly `H` rows of exactly `W` cells. -/
def wfGrid (W H : ℤ) (g : Grid) : Prop :=
  (g.length : ℤ) = H ∧ ∀ row ∈ g, (row.length : ℤ) = W

instance (W H : ℤ) (g : Grid) : Decidable (wfGrid W H g) := by
  unfold wfGrid; infer_instance

/-- Integer range `[a, b]` (ascending, empty when `b < a`). -/
def intRange (a b : ℤ) : List ℤ :=
  (List.range (b + 1 - a).toNat).map (fun (i : ℕ) => a + (i : ℤ))

/-- Multiset of all cell types occurring in a grid. -/
def gridMultiset (g : Grid) : Multiset Cell :=
  (g.flatMap id : List Cell)

/-! ## Sparse per-sand-cell property store (`ParticleProperties`) -/

/-- Friction/mass store keyed by coordinate; `none` = key absent. -/
def Props := Coord → Option (Frac × Frac)

/-- `getProperties`: stored-or-default, where a stored falsy (0) value also
falls back to the default (`this.friction[key] || 0.4`). -/
def getProperties (p : Props) (x y : ℤ) : Frac × Frac :=
  match p (x, y) with
  | none => (⟨2, 5⟩, ⟨6, 5⟩)
  | some (f, m) =>
      (if f.num = 0 then ⟨2, 5⟩ else f, if m.num = 0 then ⟨6, 5⟩ else m)

/-- `moveProperties`: copy the source entry to the target key, delete source. -/
def moveProperties (p : Props) (fromX fromY toX toY : ℤ) : Props :=
  fun k =>
    if k = (toX, toY) then p (fromX, fromY)
    else if k = (fromX, fromY) then none
    else p k

/-! ## Sand physics (`SandPhysics`) -/

inductive MoveType where
  | fall
  | diagonal
  | gap
  | slide
  deriving DecidableEq, Repr

structure Move where
  x : ℤ
  y : ℤ
  mtype : MoveType
  deriving DecidableEq, Repr

/-- `SandPhysics.canMoveTo`: in-bounds and Empty. -/
def canMoveTo (W H : ℤ) (g : Grid) (x y : ℤ) : Option Bool :=
  if x < 0 ∨ W ≤ x ∨ y < 0 ∨ H ≤ y then some false
  else (getCell g x y).map (fun c => c = empty)

structure GapCand where
  cx : ℤ
  quality : ℕ
  dist : ℕ
  deriving DecidableEq, Repr

/-- The inner per-column loop of `findGapInBarrier`: walk the candidate
column's rows, counting Empty cells, aborting on Air or Sand. -/
def checkPath (g : Grid) (cx : ℤ) : List ℤ → ℕ → Option (ℕ × Bool)
  | [], q => some (q, true)
  | r :: rs, q => do
      let c ← getCell g cx r
      if c = empty then checkPath g cx rs (q + 1)
      else if c = air then some (q, false)
      else if isSand c then some (q, false)
      else checkPath g cx rs q

/-- One candidate column of `findGapInBarrier` (offset `dx` from `x`);
inner `none` when the column is skipped or invalid. -/
def gapCandidate (W H : ℤ) (g : Grid) (x y dx : ℤ) : Option (Option GapCand) :=
  if 0 ≤ x + dx ∧ x + dx < W then do
    let (q, ok) ← checkPath g (x + dx) (intRange (y + 1) (min (y + 3) (H - 1))) 0
    pure (if ok ∧ 0 < q then some ⟨x + dx, q, dx.natAbs⟩ else none)
  else pure none

/-- The comparator `(a, b) => b.quality - a.quality || a.distance - b.distance`
read as a total order: higher quality first, then smaller distance. -/
def gapLe (a b : GapCand) : Bool :=
  b.quality < a.quality ∨ (a.quality = b.quality ∧ a.dist ≤ b.dist)

/-- Stable insertion into a list sorted by `gapLe`. -/
def gapInsert (a : GapCand) : List GapCand → List GapCand
  | [] => [a]
  | b :: bs => if gapLe b a then b :: gapInsert a bs else a :: b :: bs

/-- Stable sort by `gapLe` (models the JS stable `Array.sort`). -/
def gapSort : List GapCand → List GapCand
  | [] => []
  | a :: as_ => gapInsert a (gapSort as_)

/-- One `gaps.push` step of the scan loop of `findGapInBarrier`. -/
def gapStep (W H : ℤ) (g : Grid) (x y : ℤ) (acc : List GapCand) (dx : ℤ) :
    Option (List GapCand) := do
  let c ← gapCandidate W H g x y dx
  pure (acc ++ c.toList)

/-- `SandPhysics.findGapInBarrier`: scan offsets −3…3 (skipping 0),
collect valid gap candidates, sort, and take the best. -/
def findGapInBarrier (W H : ℤ) (g : Grid) (x y targetY : ℤ) :
    Option (Option Move) := do
  let gaps ← ([-3, -2, -1, 1, 2, 3] : List ℤ).foldlM (gapStep W H g x y) []
  match gapSort gaps with
  | [] => pure none
  | best :: _ => pure (some ⟨best.cx, targetY, MoveType.gap⟩)

/-- The loop body of `getHeightBelow` over remaining offsets `dy`. -/
def heightBelowGo (H : ℤ) (g : Grid) (x y : ℤ) : List ℤ → ℕ → Option ℕ
  | [], h => some h
  | dy :: rest, h =>
      if H ≤ y + dy then some h
      else do
        let c ← getCell g x (y + dy)
        if isSand c then heightBelowGo H g x y rest (h + 1)
        else if c = air then heightBelowGo H g x y rest (h + 5)
        else some h

/-- `SandPhysics.getHeightBelow`: stacked sand depth below `(x, y)`,
Air counting 5, out-of-range columns treated as height 1000. -/
def getHeightBelow (W H : ℤ) (g : Grid) (x y : ℤ) : Option ℕ :=
  if x < 0 ∨ W ≤ x then some 1000
  else heightBelowGo H g x y (intRange 1 9) 0

/-- One side's counting loop of `calculateLocalSlope`: count consecutive
sand cells below in column `cx`, stopping at the first non-sand
(or when `cx` is out of range). -/
def slopeSideGo (H : ℤ) (g : Grid) (cx y : ℤ) (inRange : Bool) :
    List ℤ → ℕ → Option ℕ
  | [], h => some h
  | dy :: rest, h =>
      if H ≤ y + dy then some h
      else if inRange then do
        let c ← getCell g cx (y + dy)
        if isSand c then slopeSideGo H g cx y inRange rest (h + 1)
        else some h
      else some h

/-- `SandPhysics.calculateLocalSlope`: |left stack − right stack| / 3. -/
def calculateLocalSlope (W H : ℤ) (g : Grid) (x y : ℤ) : Option Frac := do
  let l ← slopeSideGo H g (x - 1) y (decide (0 ≤ x - 1)) (intRange 1 4) 0
  let r ← slopeSideGo H g (x + 1) y (decide (x + 1 < W)) (intRange 1 4) 0
  pure ⟨(((l : ℤ) - (r : ℤ)).natAbs : ℤ), 3⟩

/-- The direction loop of `tryLateralSlide`. -/
def lateralGo (W H : ℤ) (g : Grid) (x y : ℤ) (friction : Frac) (rng : Rng) :
    List ℤ → Option (Option Move × Rng)
  | [] => some (none, rng)
  | d :: rest => do
      if 0 ≤ x + d ∧ x + d < W then do
        let b ← canMoveTo W H g (x + d) y
        if b then do
          let slope ← calculateLocalSlope W H g (x + d) y
          if Frac.ltB slope maxSlopeParam then
            let (r, rng2) := draw rng
            if Frac.ltB friction r then pure (some ⟨x + d, y, MoveType.slide⟩, rng2)
            else lateralGo W H g x y friction rng2 rest
          else lateralGo W H g x y friction rng rest
        else lateralGo W H g x y friction rng rest
      else lateralGo W H g x y friction rng rest

/-- `SandPhysics.tryLateralSlide`: prefer the side with the smaller
stacked height; slide when the local slope admits it and a random draw
exceeds the friction. -/
def tryLateralSlide (W H : ℤ) (g : Grid) (x y : ℤ) (friction : Frac)
    (rng : Rng) : Option (Option Move × Rng) := do
  let lh ← getHeightBelow W H g (x - 1) y
  let rh ← getHeightBelow W H g (x + 1) y
  let dirs : List ℤ := if lh < rh then [-1, 1] else [1, -1]
  lateralGo W H g x y friction rng dirs

/-- The diagonal loop of `findBestPath`. -/
def diagGo (W H : ℤ) (g : Grid) (x nextY : ℤ) :
    List ℤ → Option (Option Move)
  | [] => some none
  | d :: rest => do
      if 0 ≤ x + d ∧ x + d < W then do
        let b ← canMoveTo W H g (x + d) nextY
        if b then pure (some ⟨x + d, nextY, MoveType.diagonal⟩)
        else diagGo W H g x nextY rest
      else diagGo W H g x nextY rest

/-- `SandPhysics.findBestPath`: straight fall, then random-order
diagonals, then barrier-gap search, then lateral slide. -/
def findBestPath (W H : ℤ) (g : Grid) (x y gravity : ℤ) (friction : Frac)
    (rng : Rng) : Option (Option Move × Rng) :=
  if y + gravity < 0 ∨ H ≤ y + gravity then pure (none, rng)
  else do
    let b ← canMoveTo W H g x (y + gravity)
    if b then pure (some ⟨x, y + gravity, MoveType.fall⟩, rng)
    else
      match draw rng with
      | (p1, rng1) =>
      match draw rng1 with
      | (p2, rng2) => do
        let dres ← diagGo W H g x (y + gravity)
          (if Frac.leB p1 p2 then [-1, 1] else [1, -1])
        match dres with
        | some mv => pure (some mv, rng2)
        | none => do
            let gap ← findGapInBarrier W H g x y (y + gravity)
            match gap with
            | some mv => pure (some mv, rng2)
            | none => tryLateralSlide W H g x y friction rng2

/-! ## Bubble clusters (`BubbleCluster`, `BubbleManager`) -/

/-- A bubble cluster: id, member cells (insertion order), and bounding
box.  The source initialises the box to ±Infinity; `none` models the
box of a still-empty cluster. -/
structure Cluster where
  id : ℕ
  cells : List Coord
  box : Option (ℤ × ℤ × ℤ × ℤ)
  deriving DecidableEq, Repr

/-- `BubbleCluster.addCell`: record the cell and grow the bounding box. -/
def addCell (cl : Cluster) (x y : ℤ) : Cluster :=
  { cl with
    cells := cl.cells ++ [(x, y)]
    box := some (match cl.box with
      | none => (x, x, y, y)
      | some (mnX, mxX, mnY, mxY) =>
          (min mnX x, max mxX x, min mnY y, max mxY y)) }

/-- `BubbleCluster.getHeightWidthRatio`: height / width, 0 for width 0. -/
def heightOverWidth (cl : Cluster) : Frac :=
  match cl.box with
  | none => ⟨0, 1⟩
  | some (mnX, mxX, mnY, mxY) =>
      let w : ℤ := mxX - mnX + 1
      if 0 < w then ⟨mxY - mnY + 1, w.toNat⟩ else ⟨0, 1⟩

/-- `BubbleCluster.getCenterX`: midpoint of the bounding box. -/
def centerX (cl : Cluster) : Frac :=
  match cl.box with
  | none => ⟨0, 1⟩
  | some (mnX, mxX, _, _) => ⟨mnX + mxX, 2⟩

/-- `BubbleManager.floodFill`'s stack loop (fuelled; the list head is
the top of the JS stack, whose pushes end with `(x, y-1)`). -/
def floodFillGo (W H : ℤ) (g : Grid) :
    ℕ → List Coord → List Coord → Cluster → Cluster × List Coord
  | 0, _, visited, cl => (cl, visited)
  | _ + 1, [], visited, cl => (cl, visited)
  | fuel + 1, (x, y) :: rest, visited, cl =>
      if (x, y) ∈ visited then floodFillGo W H g fuel rest visited cl
      else if x < 0 ∨ W ≤ x ∨ y < 0 ∨ H ≤ y then
        floodFillGo W H g fuel rest visited cl
      else if getCell g x y ≠ some air then floodFillGo W H g fuel rest visited cl
      else
        floodFillGo W H g fuel
          ((x, y - 1) :: (x, y + 1) :: (x - 1, y) :: (x + 1, y) :: rest)
          ((x, y) :: visited) (addCell cl x y)

/-- Fuel bound for the flood fill: each visit pushes four cells and each
iteration pops one, so five steps per grid cell suffice. -/
def floodFillFuel (W H : ℤ) : ℕ :=
  (W.toNat * H.toNat + 1) * 5

/-- `BubbleManager.floodFill` from one seed cell. -/
def floodFill (W H : ℤ) (g : Grid) (startX startY : ℤ)
    (visited : List Coord) (nid : ℕ) : Cluster × List Coord :=
  floodFillGo W H g (floodFillFuel W H) [(startX, startY)] visited
    ⟨nid, [], none⟩

/-- The cell scan of `findClusters` (`y` outer, `x` inner). -/
def findClustersGo (W H : ℤ) (g : Grid) :
    List Coord → List Coord → List Cluster → ℕ → List Cluster × ℕ
  | [], _, acc, nid => (acc, nid)
  | (x, y) :: rest, visited, acc, nid =>
      if getCell g x y = some air ∧ (x, y) ∉ visited then
        let (cl, visited2) := floodFill W H g x y visited nid
        if 0 < cl.cells.length then
          findClustersGo W H g rest visited2 (acc ++ [cl]) (nid + 1)
        else findClustersGo W H g rest visited2 acc (nid + 1)
      else findClustersGo W H g rest visited acc nid

/-- `BubbleManager.findClusters`: flood-fill every unvisited Air cell;
returns the clusters and the advanced `nextClusterId`. -/
def findClusters (W H : ℤ) (g : Grid) (nid : ℕ) : List Cluster × ℕ :=
  findClustersGo W H g
    ((intRange 0 (H - 1)).flatMap
      (fun y => (intRange 0 (W - 1)).map (fun x => (x, y))))
    [] [] nid

/-- The per-tick cluster map `clusterMap[cellKey]`. -/
def clusterLookup (clusters : List Cluster) (x y : ℤ) : Option Cluster :=
  clusters.find? (fun cl => (x, y) ∈ cl.cells)

/-- `Math.random() < 0.5 ? -1 : 1`, the random left/right choice. -/
def dirOf (r : Frac) : ℤ := if Frac.ltB r ⟨1, 2⟩ then -1 else 1

/-- `Math.sign`-style step used by `applyAttraction`. -/
def signOf (d : ℤ) : ℤ := if 0 < d then 1 else if d < 0 then -1 else 0

/-! ## Bubble physics (`BubblePhysics`) -/

/-- `BubblePhysics.applyBuoyancy`: probabilistic rise against gravity
into a denser-than-air occupied cell. -/
def applyBuoyancy (W H : ℤ) (g : Grid) (x y gravity : ℤ) (rng : Rng) :
    Option (Option Coord × Rng) :=
  if 0 ≤ y - gravity ∧ y - gravity < H then do
    let above ← getCell g x (y - gravity)
    if above ≠ empty ∧ density air < density above then
      match draw rng with
      | (r, rng2) =>
        if Frac.ltB r buoyancyProb then pure (some (x, y - gravity), rng2)
        else pure (none, rng2)
    else pure (none, rng)
  else pure (none, rng)

/-- The spread direction: away from the cluster's horizontal centre. -/
def spreadDir (cl : Cluster) (x : ℤ) : ℤ :=
  if Frac.ltB ⟨x, 1⟩ (centerX cl) then -1 else 1

/-- `BubblePhysics.applySpreadForce`: when the owning cluster is too
tall, probabilistically step horizontally away from its centre. -/
def applySpreadForce (W H : ℤ) (g : Grid) (cluster : Option Cluster)
    (x y : ℤ) (rng : Rng) : Option (Option Coord × Rng) :=
  match cluster with
  | none => pure (none, rng)
  | some cl =>
      if Frac.leB (heightOverWidth cl) surfaceTensionFactor then pure (none, rng)
      else
        if 0 ≤ x + spreadDir cl x ∧ x + spreadDir cl x < W then do
          let target ← getCell g (x + spreadDir cl x) y
          if target = empty ∨ density air < density target then
            match draw rng with
            | (r, rng2) =>
              if Frac.ltB r spreadForceProb then
                pure (some (x + spreadDir cl x, y), rng2)
              else pure (none, rng2)
          else pure (none, rng)
        else pure (none, rng)

/-- The neighbourhood scan of `applyAttraction` (`dy` outer, `dx`
inner); distances are compared through their squares, which preserves
all of the source's strict comparisons. -/
def attractionScan (W H : ℤ) (g : Grid) (x y : ℤ) :
    List (ℤ × ℤ) → Option (ℤ × ℤ × Frac) → Option (Option (ℤ × ℤ × Frac))
  | [], best => some best
  | (dy, dx) :: rest, best =>
      if dx = 0 ∧ dy = 0 then attractionScan W H g x y rest best
      else
        if 0 ≤ x + dx ∧ x + dx < W ∧ 0 ≤ y + dy ∧ y + dy < H then do
          let c ← getCell g (x + dx) (y + dy)
          if c = air then
            if Frac.ltB ⟨9, 4⟩ ⟨dx * dx + dy * dy, 1⟩ &&
                (match best with
                 | none => true
                 | some (_, _, m) => Frac.ltB ⟨dx * dx + dy * dy, 1⟩ m) then
              attractionScan W H g x y rest (some (dx, dy, ⟨dx * dx + dy * dy, 1⟩))
            else attractionScan W H g x y rest best
          else attractionScan W H g x y rest best
        else attractionScan W H g x y rest best

/-- The final bounds-and-not-self check of `applyAttraction`. -/
def attractionMove (W H x y newX newY : ℤ) (rng : Rng) :
    Option (Option Coord × Rng) :=
  if 0 ≤ newX ∧ newX < W ∧ 0 ≤ newY ∧ newY < H ∧ (newX ≠ x ∨ newY ≠ y)
  then pure (some (newX, newY), rng)
  else pure (none, rng)

/-- `BubblePhysics.applyAttraction`: find the nearest Air cell beyond
immediate adjacency in a radius-3 box and probabilistically step toward
it, biased to horizontal motion. -/
def applyAttraction (W H : ℤ) (g : Grid) (x y : ℤ) (rng : Rng) :
    Option (Option Coord × Rng) := do
  let best ← attractionScan W H g x y
    ((intRange (-3) 3).flatMap
      (fun dy => (intRange (-3) 3).map (fun dx => (dy, dx)))) none
  match best with
  | none => pure (none, rng)
  | some (dx, dy, _) =>
      match draw rng with
      | (r, rng1) =>
        if Frac.ltB r cohesionProb then
          match draw rng1 with
          | (r2, rng2) =>
          match draw rng2 with
          | (r3, rng3) =>
            attractionMove W H x y
              (x + (if Frac.ltB r2 ⟨7, 10⟩ then signOf dx else 0))
              (y + (if Frac.ltB r3 ⟨3, 10⟩ then signOf dy else 0)) rng3
        else pure (none, rng1)

/-! ## The per-cell rule dispatch (`Simulation.updateParticle`) -/

/-- Lines 768–773: fallback "natural rising" swap with the cell at
`(x, y + gravity)` when it is denser than air and not itself Air. -/
def airNaturalRise (x y nextY : ℤ) (below : Cell) (newGrid : Grid)
    (rng : Rng) : Option (Grid × Rng × List Coord) :=
  if density air < density below ∧ below ≠ air then do
    let g1 ← setCell newGrid x nextY air
    let g2 ← setCell g1 x y below
    pure (g2, rng, [(x, nextY), (x, y)])
  else pure (newGrid, rng, [])

/-- Lines 757–773: bubble attraction, falling through to natural rise. -/
def airAttractionStep (W H : ℤ) (gridOld : Grid) (x y nextY : ℤ)
    (below : Cell) (newGrid : Grid) (rng : Rng) :
    Option (Grid × Rng × List Coord) := do
  let (att, rng1) ← applyAttraction W H gridOld x y rng
  match att with
  | some (ax, ay) => do
      let target ← getCell gridOld ax ay
      if target = empty ∨ density air < density target then do
        let g1 ← setCell newGrid ax ay air
        let g2 ← setCell g1 x y target
        pure (g2, rng1, [(ax, ay), (x, y)])
      else airNaturalRise x y nextY below newGrid rng1
  | none => airNaturalRise x y nextY below newGrid rng1

/-- Lines 746–773: cluster spreading, falling through to attraction. -/
def airSpreadStep (W H : ℤ) (gridOld : Grid) (clusters : List Cluster)
    (x y nextY : ℤ) (below : Cell) (newGrid : Grid) (rng : Rng) :
    Option (Grid × Rng × List Coord) := do
  let (spr, rng1) ←
    applySpreadForce W H gridOld (clusterLookup clusters x y) x y rng
  match spr with
  | some (sx, sy) => do
      let target ← getCell gridOld sx sy
      if target = empty ∨ density air < density target then do
        let g1 ← setCell newGrid sx sy air
        let g2 ← setCell g1 x y target
        pure (g2, rng1, [(sx, sy), (x, y)])
      else airAttractionStep W H gridOld x y nextY below newGrid rng1
  | none => airAttractionStep W H gridOld x y nextY below newGrid rng1

/-- Lines 808–820: horizontal spreading of water into an Empty side. -/
def waterSpreadStep (W H : ℤ) (gridOld : Grid) (x y : ℤ)
    (newGrid : Grid) (rng : Rng) : Option (Grid × Rng × List Coord) :=
  match draw rng with
  | (r, rng1) =>
    if Frac.ltB ⟨1, 2⟩ r then
      match draw rng1 with
      | (r2, rng2) =>
        if 0 ≤ x + dirOf r2 ∧ x + dirOf r2 < W then do
          let side ← getCell gridOld (x + dirOf r2) y
          if side = empty then do
            let g1 ← setCell newGrid (x + dirOf r2) y water
            let g2 ← setCell g1 x y empty
            pure (g2, rng2, [(x + dirOf r2, y), (x, y)])
          else pure (newGrid, rng2, [])
        else pure (newGrid, rng2, [])
    else pure (newGrid, rng1, [])

/-- Lines 693–731: the sand branch of `updateParticle`. -/
def sandRule (W H : ℤ) (gridOld : Grid) (gravity : ℤ) (x y : ℤ)
    (particle below : Cell) (newGrid : Grid) (props : Props) (rng : Rng) :
    Option (Grid × Props × Rng × List Coord) := do
  if below = air then do
    let (lat, rng1) ←
      tryLateralSlide W H gridOld x y (getProperties props x y).1 rng
    match lat with
    | some mv => do
        let g1 ← setCell newGrid mv.x mv.y particle
        let g2 ← setCell g1 x y empty
        pure (g2, moveProperties props x y mv.x mv.y, rng1,
          [(mv.x, mv.y), (x, y)])
    | none => pure (newGrid, props, rng1, [])
  else do
    let (spreadRes, rngA) ←
      if isSand below then
        tryLateralSlide W H gridOld x y ((getProperties props x y).1.mul ⟨1, 2⟩) rng
      else pure (none, rng)
    match spreadRes with
    | some mv => do
        let g1 ← setCell newGrid mv.x mv.y particle
        let g2 ← setCell g1 x y empty
        pure (g2, moveProperties props x y mv.x mv.y, rngA,
          [(mv.x, mv.y), (x, y)])
    | none => do
        let (mvO, rngB) ←
          findBestPath W H gridOld x y gravity (getProperties props x y).1 rngA
        match mvO with
        | some mv => do
            let target ← getCell gridOld mv.x mv.y
            let g1 ← setCell newGrid mv.x mv.y particle
            let g2 ← setCell g1 x y target
            pure (g2, moveProperties props x y mv.x mv.y, rngB,
              [(mv.x, mv.y), (x, y)])
        | none => pure (newGrid, props, rngB, [])

/-- Lines 734–774: the air-bubble branch of `updateParticle`. -/
def airRule (W H : ℤ) (gridOld : Grid) (gravity : ℤ)
    (clusters : List Cluster) (x y : ℤ) (particle below : Cell)
    (newGrid : Grid) (props : Props) (rng : Rng) :
    Option (Grid × Props × Rng × List Coord) := do
  let (buoy, rng1) ← applyBuoyancy W H gridOld x y gravity rng
  match buoy with
  | some (bx, by2) => do
      let target ← getCell gridOld bx by2
      let g1 ← setCell newGrid bx by2 particle
      let g2 ← setCell g1 x y target
      pure (g2, props, rng1, [(bx, by2), (x, y)])
  | none => do
      let (g2, rng2, log) ←
        airSpreadStep W H gridOld clusters x y (y + gravity) below newGrid rng1
      pure (g2, props, rng2, log)

/-- Lines 777–821: the water branch of `updateParticle`. -/
def waterRule (W H : ℤ) (gridOld : Grid) (gravity : ℤ) (x y : ℤ)
    (particle below : Cell) (newGrid : Grid) (props : Props) (rng : Rng) :
    Option (Grid × Props × Rng × List Coord) := do
  if (0 < gravity ∧ density below < density particle) ∨
      (gravity < 0 ∧ density particle < density below) then
    if below = empty ∨ density below < density particle then do
      let g1 ← setCell newGrid x (y + gravity) particle
      let g2 ← setCell g1 x y below
      pure (g2, props, rng, [(x, y + gravity), (x, y)])
    else
      match draw rng with
      | (r1, rng1) =>
        if Frac.ltB ⟨7, 10⟩ r1 then
          match draw rng1 with
          | (r2, rng2) =>
            if 0 ≤ x + dirOf r2 ∧ x + dirOf r2 < W then do
              let diag ← getCell gridOld (x + dirOf r2) (y + gravity)
              if diag = empty ∨ density diag < density particle then do
                let g1 ← setCell newGrid (x + dirOf r2) (y + gravity) particle
                let g2 ← setCell g1 x y empty
                pure (g2, props, rng2, [(x + dirOf r2, y + gravity), (x, y)])
              else do
                let (g2, rng3, log) ← waterSpreadStep W H gridOld x y newGrid rng2
                pure (g2, props, rng3, log)
            else do
              let (g2, rng3, log) ← waterSpreadStep W H gridOld x y newGrid rng2
              pure (g2, props, rng3, log)
        else do
          let (g2, rng3, log) ← waterSpreadStep W H gridOld x y newGrid rng1
          pure (g2, props, rng3, log)
  else do
    let (g2, rng3, log) ← waterSpreadStep W H gridOld x y newGrid rng
    pure (g2, props, rng3, log)

/-- `Simulation.updateParticle`: dispatch the rule for the cell read at
`(x, y)` of the tick's read grid `gridOld`, writing into `newGrid`.
Returns the updated output buffer, property store, RNG, and the list of
coordinates assigned (in assignment order). -/
def updateParticle (W H : ℤ) (gridOld : Grid) (gravity : ℤ)
    (clusters : List Cluster) (x y : ℤ) (newGrid : Grid) (props : Props)
    (rng : Rng) : Option (Grid × Props × Rng × List Coord) := do
  let particle ← getCell gridOld x y
  if particle = empty then pure (newGrid, props, rng, [])
  else if y + gravity < 0 ∨ H ≤ y + gravity then pure (newGrid, props, rng, [])
  else do
    let below ← getCell gridOld x (y + gravity)
    if isSand particle then
      sandRule W H gridOld gravity x y particle below newGrid props rng
    else if particle = air then
      airRule W H gridOld gravity clusters x y particle below newGrid props rng
    else if particle = water then
      waterRule W H gridOld gravity x y particle below newGrid props rng
    else pure (newGrid, props, rng, [])

/-! ## The tick driver (`Simulation.update`) -/

/-- Per-tick state: output buffer, property store, RNG, and for each
processed source cell its write log. -/
abbrev TickState := Grid × Props × Rng × List (Coord × List Coord)

/-- The per-cell processing order of a tick: bottom-to-top rows for
downward gravity, top-to-bottom for inverted gravity, left-to-right
within a row. -/
def cellOrder (W H gravity : ℤ) : List Coord :=
  (if 0 < gravity then (intRange 0 (H - 1)).reverse
   else intRange 0 (H - 1)).flatMap
    (fun y => (intRange 0 (W - 1)).map (fun x => ((x, y) : Coord)))

/-- One driver step: process source cell `c`, appending its write log. -/
def tickCell (W H : ℤ) (gridOld : Grid) (gravity : ℤ)
    (clusters : List Cluster) (st : TickState) (c : Coord) :
    Option TickState := do
  let (ng2, p2, r2, log) ←
    updateParticle W H gridOld gravity clusters c.1 c.2 st.1 st.2.1 st.2.2.1
  pure (ng2, p2, r2, st.2.2.2 ++ [(c, log)])

/-- `Simulation.update`: one tick.  The output buffer starts as a copy
of the read grid; every source cell is processed once in
gravity-dependent order. -/
def update (W H : ℤ) (g : Grid) (gravity : ℤ) (props : Props)
    (rng : Rng) : Option TickState :=
  (cellOrder W H gravity).foldlM
    (tickCell W H g gravity (findClusters W H g 0).1) (g, props, rng, [])

/-! ## Vocabulary for characterising the gap scan

The window of rows the inner loop of `findGapInBarrier` walks, and the
two quantities it derives from a candidate column: whether the column's
window is free of Air and Sand (the loop's break conditions), and how
many Empty cells the window holds (its `gapQuality`). -/

/-- The rows `y + 1 … min(y + 3, H − 1)` scanned for a candidate column. -/
def gapWindow (H y : ℤ) : List ℤ :=
  intRange (y + 1) (min (y + 3) (H - 1))

/-- No cell of the column's window is Air or Sand (Water is allowed). -/
def colClear (g : Grid) (cx H y : ℤ) : Prop :=
  ∀ r ∈ gapWindow H y, ∀ c, getCell g cx r = some c →
    c ≠ air ∧ isSand c = false

/-- Total number of Empty cells in the column's window. -/
def colEmpties (g : Grid) (cx H y : ℤ) : ℕ :=
  (gapWindow H y).countP (fun r => decide (getCell g cx r = some empty))

/-! ## Basic facts about the grid representation -/

theorem mem_intRange {a b r : ℤ} : r ∈ intRange a b ↔ a ≤ r ∧ r ≤ b := by
  unfold intRange
  simp only [List.mem_map, List.mem_range]
  constructor
  · rintro ⟨i, hi, rfl⟩; omega
  · rintro ⟨h1, h2⟩
    exact ⟨(r - a).toNat, by omega, by omega⟩

theorem getCell_inbounds {W H : ℤ} {g : Grid} (hwf : wfGrid W H g)
    {x y : ℤ} {c : Cell} (h : getCell g x y = some c) :
    0 ≤ x ∧ x < W ∧ 0 ≤ y ∧ y < H := by
  obtain ⟨hlen, hrows⟩ := hwf
  unfold getCell at h
  by_cases hneg : x < 0 ∨ y < 0
  · rw [if_pos hneg] at h; exact absurd h (by simp)
  · rw [if_neg hneg] at h
    push_neg at hneg
    match hrow : g[y.toNat]? with
    | none => rw [hrow] at h; exact absurd h (by simp)
    | some row =>
        rw [hrow] at h
        have hyl : y.toNat < g.length := List.getElem?_eq_some_iff.mp hrow |>.1
        have hmem : row ∈ g := by
          have := List.getElem?_eq_some_iff.mp hrow
          obtain ⟨hlt, heq⟩ := this
          exact heq ▸ List.getElem_mem hlt
        have hxl : x.toNat < row.length := by
          have := List.getElem?_eq_some_iff.mp h
          exact this.1
        have := hrows _ hmem
        omega

theorem setCell_some {W H : ℤ} {g : Grid} (hwf : wfGrid W H g)
    {x y : ℤ} (hx0 : 0 ≤ x) (hxW : x < W) (hy0 : 0 ≤ y) (hyH : y < H)
    (c : Cell) :
    ∃ g2, setCell g x y c = some g2 ∧ wfGrid W H g2 := by
  obtain ⟨hlen, hrows⟩ := hwf
  have hyl : y.toNat < g.length := by omega
  have hrl : (g[y.toNat].length : ℤ) = W := hrows _ (List.getElem_mem hyl)
  have hxl : x.toNat < g[y.toNat].length := by omega
  refine ⟨g.set y.toNat (g[y.toNat].set x.toNat c), ?_, ?_, ?_⟩
  · unfold setCell
    rw [if_neg (by omega), List.getElem?_eq_getElem hyl]
    exact if_pos hxl
  · rw [List.length_set]; exact hlen
  · intro row hrow
    rcases List.mem_or_eq_of_mem_set hrow with h | h
    · exact hrows _ h
    · subst h; rw [List.length_set]; exact hrl

theorem setCell_elim {g g2 : Grid} {x y : ℤ} {c : Cell}
    (h : setCell g x y c = some g2) :
    0 ≤ x ∧ 0 ≤ y ∧ ∃ row, g[y.toNat]? = some row ∧ x.toNat < row.length ∧
      g2 = g.set y.toNat (row.set x.toNat c) := by
  unfold setCell at h
  split at h
  · exact absurd h (by simp)
  next hneg =>
    push_neg at hneg
    split at h
    · exact absurd h (by simp)
    next row hrow =>
      split at h
      next hxl =>
        exact ⟨hneg.1, hneg.2, row, hrow, hxl, (Option.some_inj.mp h).symm⟩
      · exact absurd h (by simp)

theorem getCell_setCell_same {g g2 : Grid} {x y : ℤ} {c : Cell}
    (h : setCell g x y c = some g2) : getCell g2 x y = some c := by
  obtain ⟨hx0, hy0, row, hrow, hxl, rfl⟩ := setCell_elim h
  have hyl : y.toNat < g.length := (List.getElem?_eq_some_iff.mp hrow).1
  unfold getCell
  rw [if_neg (by omega), List.getElem?_set, if_pos rfl, if_pos hyl]
  show (row.set x.toNat c)[x.toNat]? = some c
  rw [List.getElem?_set, if_pos rfl, if_pos hxl]

theorem getCell_setCell_ne {g g2 : Grid} {x y : ℤ} {c : Cell}
    (h : setCell g x y c = some g2) {x2 y2 : ℤ} (hne : (x2, y2) ≠ (x, y)) :
    getCell g2 x2 y2 = getCell g x2 y2 := by
  obtain ⟨hx0, hy0, row, hrow, hxl, rfl⟩ := setCell_elim h
  have hyl : y.toNat < g.length := (List.getElem?_eq_some_iff.mp hrow).1
  unfold getCell
  by_cases hneg : x2 < 0 ∨ y2 < 0
  · rw [if_pos hneg, if_pos hneg]
  · rw [if_neg hneg, if_neg hneg, List.getElem?_set]
    push_neg at hneg
    by_cases hyy : y.toNat = y2.toNat
    · have hy2 : y2 = y := by omega
      subst hy2
      have hx2 : x2 ≠ x := by
        intro hc; exact hne (by rw [hc])
      have hxx : x.toNat ≠ x2.toNat := by omega
      rw [if_pos hyy, if_pos hyl, hrow]
      show (row.set x.toNat c)[x2.toNat]? = row[x2.toNat]?
      rw [List.getElem?_set, if_neg hxx]
    · rw [if_neg hyy]


/-! ## Totality of the rule helpers: every access is range-checked -/

theorem optBind_some {α β : Type} (a : α) (f : α → Option β) :
    (do let x ← some a; f x : Option β) = f a := rfl

theorem getCell_isSome {W H : ℤ} {g : Grid} (hwf : wfGrid W H g)
    (x y : ℤ) (hx0 : 0 ≤ x) (hxW : x < W) (hy0 : 0 ≤ y) (hyH : y < H) :
    ∃ c, getCell g x y = some c := by
  obtain ⟨hlen, hrows⟩ := hwf
  have hyl : y.toNat < g.length := by omega
  have hrl : (g[y.toNat].length : ℤ) = W := hrows _ (List.getElem_mem hyl)
  have hxl : x.toNat < g[y.toNat].length := by omega
  refine ⟨g[y.toNat][x.toNat], ?_⟩
  unfold getCell
  rw [if_neg (by omega), List.getElem?_eq_getElem hyl]
  exact List.getElem?_eq_getElem hxl

theorem canMoveTo_isSome {W H : ℤ} {g : Grid} (hwf : wfGrid W H g)
    (x y : ℤ) : ∃ b, canMoveTo W H g x y = some b := by
  unfold canMoveTo
  split
  · exact ⟨false, rfl⟩
  next hc =>
    push_neg at hc
    obtain ⟨c, hcell⟩ :=
      getCell_isSome hwf x y (by omega) (by omega) (by omega) (by omega)
    refine ⟨decide (c = empty), ?_⟩
    rw [hcell]
    rfl

theorem canMoveTo_true {W H : ℤ} {g : Grid} {x y : ℤ}
    (h : canMoveTo W H g x y = some true) :
    0 ≤ x ∧ x < W ∧ 0 ≤ y ∧ y < H ∧ getCell g x y = some empty := by
  unfold canMoveTo at h
  split at h
  · simp at h
  next hc =>
    push_neg at hc
    match hcell : getCell g x y with
    | none => rw [hcell] at h; simp at h
    | some c =>
        rw [hcell] at h
        simp only [Option.map_some', Option.some_inj] at h
        have hce : c = empty := by simpa using h
        refine ⟨by omega, by omega, by omega, by omega, ?_⟩
        rw [hce]

theorem checkPath_isSome {W H : ℤ} {g : Grid} (hwf : wfGrid W H g)
    (cx : ℤ) (hcx0 : 0 ≤ cx) (hcxW : cx < W) :
    ∀ (rows : List ℤ) (q : ℕ), (∀ r ∈ rows, 0 ≤ r ∧ r < H) →
    ∃ res, checkPath g cx rows q = some res := by
  intro rows
  induction rows with
  | nil => exact fun q _ => ⟨(q, true), rfl⟩
  | cons r rs ih =>
      intro q hb
      obtain ⟨hr0, hrH⟩ := hb r (by simp)
      obtain ⟨c, hc⟩ := getCell_isSome hwf cx r hcx0 hcxW hr0 hrH
      rw [checkPath, hc, optBind_some]
      split
      · exact ih (q + 1) (fun r2 hr2 => hb r2 (by simp [hr2]))
      · split
        · exact ⟨(q, false), rfl⟩
        · split
          · exact ⟨(q, false), rfl⟩
          · exact ih q (fun r2 hr2 => hb r2 (by simp [hr2]))

theorem gapCandidate_isSome {W H : ℤ} {g : Grid} (hwf : wfGrid W H g)
    (x y dx : ℤ) (hy0 : 0 ≤ y) :
    ∃ r, gapCandidate W H g x y dx = some r := by
  unfold gapCandidate
  split
  next hin =>
    obtain ⟨res, hres⟩ := checkPath_isSome hwf (x + dx) (by omega) (by omega)
      (intRange (y + 1) (min (y + 3) (H - 1))) 0
      (fun r hr => by have := mem_intRange.mp hr; omega)
    obtain ⟨q, ok⟩ := res
    exact ⟨_, by rw [hres, optBind_some]; rfl⟩
  · exact ⟨none, rfl⟩

theorem foldlM_isSome_inv {σ α : Type} (P : σ → Prop) (f : σ → α → Option σ) :
    ∀ (l : List α) (s : σ), P s →
    (∀ s2 a, a ∈ l → P s2 → ∃ s3, f s2 a = some s3 ∧ P s3) →
    ∃ s2, List.foldlM f s l = some s2 ∧ P s2 := by
  intro l
  induction l with
  | nil => exact fun s hs _ => ⟨s, rfl, hs⟩
  | cons a as ih =>
      intro s hs hstep
      obtain ⟨s2, hfs, hs2⟩ := hstep s a (by simp) hs
      obtain ⟨s4, hfold, hs4⟩ :=
        ih s2 hs2 (fun s3 b hb h3 => hstep s3 b (by simp [hb]) h3)
      refine ⟨s4, ?_, hs4⟩
      rw [List.foldlM_cons, hfs, optBind_some]
      exact hfold

theorem findGapInBarrier_isSome {W H : ℤ} {g : Grid} (hwf : wfGrid W H g)
    (x y targetY : ℤ) (hy0 : 0 ≤ y) :
    ∃ r, findGapInBarrier W H g x y targetY = some r := by
  unfold findGapInBarrier
  obtain ⟨gaps, hgaps, -⟩ := foldlM_isSome_inv (fun _ => True)
    (gapStep W H g x y) ([-3, -2, -1, 1, 2, 3] : List ℤ) [] trivial
    (fun acc dx _ _ => by
      obtain ⟨r, hr⟩ := gapCandidate_isSome hwf x y dx hy0
      exact ⟨acc ++ r.toList, by unfold gapStep; rw [hr, optBind_some]; rfl, trivial⟩)
  rw [hgaps, optBind_some]
  match gapSort gaps with
  | [] => exact ⟨none, rfl⟩
  | best :: _ => exact ⟨_, rfl⟩

theorem heightBelowGo_isSome {W H : ℤ} {g : Grid} (hwf : wfGrid W H g)
    (x y : ℤ) (hx0 : 0 ≤ x) (hxW : x < W) (hy0 : 0 ≤ y) :
    ∀ (dys : List ℤ) (h0 : ℕ), (∀ d ∈ dys, 1 ≤ d) →
    ∃ r, heightBelowGo H g x y dys h0 = some r := by
  intro dys
  induction dys with
  | nil => exact fun h0 _ => ⟨h0, rfl⟩
  | cons d rest ih =>
      intro h0 hb
      rw [heightBelowGo]
      split
      · exact ⟨h0, rfl⟩
      next hlt =>
        have hd : 1 ≤ d := hb d (by simp)
        obtain ⟨c, hc⟩ :=
          getCell_isSome hwf x (y + d) hx0 hxW (by omega) (by omega)
        rw [hc, optBind_some]
        split
        · exact ih (h0 + 1) (fun d2 hd2 => hb d2 (by simp [hd2]))
        · split
          · exact ih (h0 + 5) (fun d2 hd2 => hb d2 (by simp [hd2]))
          · exact ⟨h0, rfl⟩

theorem getHeightBelow_isSome {W H : ℤ} {g : Grid} (hwf : wfGrid W H g)
    (x y : ℤ) (hy0 : 0 ≤ y) :
    ∃ r, getHeightBelow W H g x y = some r := by
  unfold getHeightBelow
  split
  · exact ⟨1000, rfl⟩
  next hc =>
    push_neg at hc
    exact heightBelowGo_isSome hwf x y (by omega) (by omega) hy0 _ 0
      (fun d hd => by have := mem_intRange.mp hd; omega)

theorem slopeSideGo_isSome {W H : ℤ} {g : Grid} (hwf : wfGrid W H g)
    (cx y : ℤ) (inR : Bool) (hy0 : 0 ≤ y)
    (hin : inR = true → 0 ≤ cx ∧ cx < W) :
    ∀ (dys : List ℤ) (h0 : ℕ), (∀ d ∈ dys, 1 ≤ d) →
    ∃ r, slopeSideGo H g cx y inR dys h0 = some r := by
  intro dys
  induction dys with
  | nil => exact fun h0 _ => ⟨h0, rfl⟩
  | cons d rest ih =>
      intro h0 hb
      rw [slopeSideGo]
      split
      · exact ⟨h0, rfl⟩
      next hlt =>
        split
        next hR =>
          have hd : 1 ≤ d := hb d (by simp)
          obtain ⟨hcx0, hcxW⟩ := hin hR
          obtain ⟨c, hc⟩ :=
            getCell_isSome hwf cx (y + d) hcx0 hcxW (by omega) (by omega)
          rw [hc, optBind_some]
          split
          · exact ih (h0 + 1) (fun d2 hd2 => hb d2 (by simp [hd2]))
          · exact ⟨h0, rfl⟩
        · exact ⟨h0, rfl⟩

theorem calculateLocalSlope_isSome {W H : ℤ} {g : Grid} (hwf : wfGrid W H g)
    (x y : ℤ) (hx0 : 0 ≤ x) (hxW : x < W) (hy0 : 0 ≤ y) :
    ∃ r, calculateLocalSlope W H g x y = some r := by
  obtain ⟨l, hl⟩ := slopeSideGo_isSome hwf (x - 1) y (decide (0 ≤ x - 1)) hy0
    (fun h => ⟨of_decide_eq_true h, by omega⟩) (intRange 1 4) 0
    (fun d hd => by have := mem_intRange.mp hd; omega)
  obtain ⟨r, hr⟩ := slopeSideGo_isSome hwf (x + 1) y (decide (x + 1 < W)) hy0
    (fun h => ⟨by omega, of_decide_eq_true h⟩) (intRange 1 4) 0
    (fun d hd => by have := mem_intRange.mp hd; omega)
  refine ⟨⟨(((l : ℤ) - (r : ℤ)).natAbs : ℤ), 3⟩, ?_⟩
  unfold calculateLocalSlope
  rw [hl, optBind_some, hr, optBind_some]
  rfl

theorem lateralGo_isSome {W H : ℤ} {g : Grid} (hwf : wfGrid W H g)
    (x y : ℤ) (friction : Frac) (hy0 : 0 ≤ y) :
    ∀ (dirs : List ℤ) (rng : Rng),
    ∃ r, lateralGo W H g x y friction rng dirs = some r := by
  intro dirs
  induction dirs with
  | nil => exact fun rng => ⟨(none, rng), rfl⟩
  | cons d rest ih =>
      intro rng
      rw [lateralGo]
      split
      next hin =>
        obtain ⟨b, hb⟩ := canMoveTo_isSome hwf (x + d) y
        rw [hb, optBind_some]
        split
        · obtain ⟨s, hs⟩ := calculateLocalSlope_isSome hwf (x + d) y
            (by omega) (by omega) hy0
          rw [hs, optBind_some]
          split
          · rcases hdraw : draw rng with ⟨r, rng2⟩
            dsimp only
            split
            · exact ⟨_, rfl⟩
            · exact ih rng2
          · exact ih rng
        · exact ih rng
      · exact ih rng

theorem tryLateralSlide_isSome {W H : ℤ} {g : Grid} (hwf : wfGrid W H g)
    (x y : ℤ) (friction : Frac) (rng : Rng) (hy0 : 0 ≤ y) :
    ∃ r, tryLateralSlide W H g x y friction rng = some r := by
  obtain ⟨lh, hlh⟩ := getHeightBelow_isSome hwf (x - 1) y hy0
  obtain ⟨rh, hrh⟩ := getHeightBelow_isSome hwf (x + 1) y hy0
  unfold tryLateralSlide
  rw [hlh, optBind_some, hrh, optBind_some]
  exact lateralGo_isSome hwf x y friction hy0 _ rng

theorem diagGo_isSome {W H : ℤ} {g : Grid} (hwf : wfGrid W H g)
    (x nextY : ℤ) :
    ∀ dirs : List ℤ, ∃ r, diagGo W H g x nextY dirs = some r := by
  intro dirs
  induction dirs with
  | nil => exact ⟨none, rfl⟩
  | cons d rest ih =>
      rw [diagGo]
      split
      · obtain ⟨b, hb⟩ := canMoveTo_isSome hwf (x + d) nextY
        rw [hb, optBind_some]
        split
        · exact ⟨_, rfl⟩
        · exact ih
      · exact ih

theorem findBestPath_isSome {W H : ℤ} {g : Grid} (hwf : wfGrid W H g)
    (x y gravity : ℤ) (friction : Frac) (rng : Rng) (hy0 : 0 ≤ y) :
    ∃ r, findBestPath W H g x y gravity friction rng = some r := by
  unfold findBestPath
  split
  · exact ⟨(none, rng), rfl⟩
  next hnb =>
    obtain ⟨b, hb⟩ := canMoveTo_isSome hwf x (y + gravity)
    rw [hb, optBind_some]
    split
    · exact ⟨_, rfl⟩
    · rcases hd1 : draw rng with ⟨p1, rng1⟩
      dsimp only
      rcases hd2 : draw rng1 with ⟨p2, rng2⟩
      dsimp only
      obtain ⟨dres, hdres⟩ := diagGo_isSome hwf x (y + gravity)
        (if Frac.leB p1 p2 then [-1, 1] else [1, -1])
      rw [hdres, optBind_some]
      match dres with
      | some mv => exact ⟨_, rfl⟩
      | none =>
          obtain ⟨gap, hgap⟩ := findGapInBarrier_isSome hwf x y (y + gravity) hy0
          rw [hgap, optBind_some]
          match gap with
          | some mv => exact ⟨_, rfl⟩
          | none => exact tryLateralSlide_isSome hwf x y friction rng2 hy0

/-! ## Shapes of the moves each rule can produce -/

theorem optBind_eq_some {α β : Type} {e : Option α} {f : α → Option β}
    {b : β} : (do let x ← e; f x : Option β) = some b ↔
      ∃ a, e = some a ∧ f a = some b := by
  cases e <;> simp

theorem lateralGo_spec {W H : ℤ} {g : Grid} {x y : ℤ} {friction : Frac} :
    ∀ (dirs : List ℤ) (rng : Rng) (mv : Move) (rng2 : Rng),
    lateralGo W H g x y friction rng dirs = some (some mv, rng2) →
    mv.y = y ∧ mv.mtype = MoveType.slide ∧ (∃ d ∈ dirs, mv.x = x + d) ∧
    0 ≤ mv.x ∧ mv.x < W ∧ getCell g mv.x y = some empty := by
  intro dirs
  induction dirs with
  | nil =>
      intro rng mv rng2 h
      rw [lateralGo] at h
      simp at h
  | cons d rest ih =>
      intro rng mv rng2 h
      rw [lateralGo] at h
      split at h
      next hin =>
        rw [optBind_eq_some] at h
        obtain ⟨b, hb, h⟩ := h
        split at h
        next hbt =>
          subst hbt
          rw [optBind_eq_some] at h
          obtain ⟨s, hs, h⟩ := h
          split at h
          · rcases hdraw : draw rng with ⟨r, rngd⟩
            rw [hdraw] at h
            dsimp only at h
            split at h
            · simp only [Option.pure_def, Option.some_inj, Prod.mk.injEq] at h
              obtain ⟨hmv, -⟩ := h
              obtain ⟨-, -, -, -, hcell⟩ := canMoveTo_true hb
              subst hmv
              exact ⟨rfl, rfl, ⟨d, by simp, rfl⟩, by dsimp only; omega,
                by dsimp only; omega, hcell⟩
            · obtain ⟨h1, h2, ⟨d2, hd2, h3⟩, h4⟩ := ih _ _ _ h
              exact ⟨h1, h2, ⟨d2, by simp [hd2], h3⟩, h4⟩
          · obtain ⟨h1, h2, ⟨d2, hd2, h3⟩, h4⟩ := ih _ _ _ h
            exact ⟨h1, h2, ⟨d2, by simp [hd2], h3⟩, h4⟩
        · obtain ⟨h1, h2, ⟨d2, hd2, h3⟩, h4⟩ := ih _ _ _ h
          exact ⟨h1, h2, ⟨d2, by simp [hd2], h3⟩, h4⟩
      · obtain ⟨h1, h2, ⟨d2, hd2, h3⟩, h4⟩ := ih _ _ _ h
        exact ⟨h1, h2, ⟨d2, by simp [hd2], h3⟩, h4⟩

theorem tryLateralSlide_spec {W H : ℤ} {g : Grid} {x y : ℤ}
    {friction : Frac} {rng : Rng} {mv : Move} {rng2 : Rng}
    (h : tryLateralSlide W H g x y friction rng = some (some mv, rng2)) :
    mv.y = y ∧ mv.mtype = MoveType.slide ∧
    (mv.x = x - 1 ∨ mv.x = x + 1) ∧
    0 ≤ mv.x ∧ mv.x < W ∧ getCell g mv.x y = some empty := by
  unfold tryLateralSlide at h
  rw [optBind_eq_some] at h
  obtain ⟨lh, hlh, h⟩ := h
  rw [optBind_eq_some] at h
  obtain ⟨rh, hrh, h⟩ := h
  obtain ⟨h1, h2, ⟨d, hd, h3⟩, h4, h5, h6⟩ := lateralGo_spec _ _ _ _ h
  refine ⟨h1, h2, ?_, h4, h5, h6⟩
  have hd2 : d = -1 ∨ d = 1 := by
    split at hd <;> simp at hd <;> tauto
  rcases hd2 with rfl | rfl
  · exact Or.inl (by omega)
  · exact Or.inr (by omega)

theorem diagGo_spec {W H : ℤ} {g : Grid} {x nextY : ℤ} :
    ∀ (dirs : List ℤ) (mv : Move),
    diagGo W H g x nextY dirs = some (some mv) →
    mv.y = nextY ∧ mv.mtype = MoveType.diagonal ∧ (∃ d ∈ dirs, mv.x = x + d) ∧
    0 ≤ mv.x ∧ mv.x < W ∧ getCell g mv.x nextY = some empty := by
  intro dirs
  induction dirs with
  | nil =>
      intro mv h
      rw [diagGo] at h
      simp at h
  | cons d rest ih =>
      intro mv h
      rw [diagGo] at h
      split at h
      next hin =>
        rw [optBind_eq_some] at h
        obtain ⟨b, hb, h⟩ := h
        split at h
        next hbt =>
          subst hbt
          simp only [Option.pure_def, Option.some_inj] at h
          obtain ⟨-, -, -, -, hcell⟩ := canMoveTo_true hb
          subst h
          exact ⟨rfl, rfl, ⟨d, by simp, rfl⟩, by dsimp only; omega,
            by dsimp only; omega, hcell⟩
        · obtain ⟨h1, h2, ⟨d2, hd2, h3⟩, h4⟩ := ih _ h
          exact ⟨h1, h2, ⟨d2, by simp [hd2], h3⟩, h4⟩
      · obtain ⟨h1, h2, ⟨d2, hd2, h3⟩, h4⟩ := ih _ h
        exact ⟨h1, h2, ⟨d2, by simp [hd2], h3⟩, h4⟩

theorem gapCandidate_some_shape {W H : ℤ} {g : Grid} {x y dx : ℤ}
    {gc : GapCand} (h : gapCandidate W H g x y dx = some (some gc)) :
    gc.cx = x + dx ∧ 0 ≤ gc.cx ∧ gc.cx < W := by
  unfold gapCandidate at h
  split at h
  next hin =>
    rw [optBind_eq_some] at h
    obtain ⟨⟨q, ok⟩, hcp, h⟩ := h
    dsimp only at h
    split at h
    · simp only [Option.pure_def, Option.some_inj] at h
      subst h
      exact ⟨rfl, by dsimp only; omega, by dsimp only; omega⟩
    · simp at h
  · simp at h

theorem foldGaps_mem {W H : ℤ} {g : Grid} {x y : ℤ} :
    ∀ (l : List ℤ) (acc : List GapCand) (res : List GapCand),
    l.foldlM (gapStep W H g x y) acc = some res →
    ∀ gc ∈ res, gc ∈ acc ∨
      ∃ dx ∈ l, gapCandidate W H g x y dx = some (some gc) := by
  intro l
  induction l with
  | nil =>
      intro acc res h gc hgc
      simp only [List.foldlM_nil, Option.pure_def, Option.some_inj] at h
      exact Or.inl (h ▸ hgc)
  | cons dx rest ih =>
      intro acc res h gc hgc
      rw [List.foldlM_cons, optBind_eq_some] at h
      obtain ⟨acc2, hstep, hfold⟩ := h
      unfold gapStep at hstep
      rw [optBind_eq_some] at hstep
      obtain ⟨c, hcand, hpure⟩ := hstep
      simp only [Option.pure_def, Option.some_inj] at hpure
      subst hpure
      rcases ih _ _ hfold gc hgc with hin | ⟨dx2, hdx2, hc2⟩
      · rcases List.mem_append.mp hin with hin2 | hin2
        · exact Or.inl hin2
        · right
          refine ⟨dx, by simp, ?_⟩
          cases c with
          | none => simp at hin2
          | some gc2 =>
              simp only [Option.toList_some, List.mem_singleton] at hin2
              rw [hin2]
              exact hcand
      · exact Or.inr ⟨dx2, by simp [hdx2], hc2⟩

theorem mem_gapInsert {a c : GapCand} :
    ∀ {l : List GapCand}, c ∈ gapInsert a l ↔ c = a ∨ c ∈ l := by
  intro l
  induction l with
  | nil => simp [gapInsert]
  | cons b bs ih =>
      rw [gapInsert]
      split
      · simp only [List.mem_cons, ih]; tauto
      · simp only [List.mem_cons]

theorem mem_gapSort {c : GapCand} :
    ∀ {l : List GapCand}, c ∈ gapSort l ↔ c ∈ l := by
  intro l
  induction l with
  | nil => simp [gapSort]
  | cons b bs ih =>
      rw [gapSort, mem_gapInsert]
      simp only [List.mem_cons, ih]

theorem findGapInBarrier_spec {W H : ℤ} {g : Grid} {x y t : ℤ} {mv : Move}
    (h : findGapInBarrier W H g x y t = some (some mv)) :
    mv.mtype = MoveType.gap ∧ mv.y = t ∧ 0 ≤ mv.x ∧ mv.x < W ∧ mv.x ≠ x := by
  unfold findGapInBarrier at h
  rw [optBind_eq_some] at h
  obtain ⟨gaps, hfold, h⟩ := h
  match hsort : gapSort gaps with
  | [] => rw [hsort] at h; simp at h
  | best :: rest =>
      rw [hsort] at h
      simp only [Option.pure_def, Option.some_inj] at h
      subst h
      have hbestmem : best ∈ gaps := by
        have : best ∈ gapSort gaps := by rw [hsort]; simp
        exact mem_gapSort.mp this
      rcases foldGaps_mem _ _ _ hfold best hbestmem with hin | ⟨dx, hdx, hcand⟩
      · simp at hin
      · obtain ⟨hcx, h0, hW⟩ := gapCandidate_some_shape hcand
        have hdxne : dx ≠ 0 := by
          simp only [List.mem_cons, List.mem_singleton] at hdx
          rcases hdx with rfl | rfl | rfl | rfl | rfl | rfl | h2
          · omega
          · omega
          · omega
          · omega
          · omega
          · omega
          · simp at h2
        refine ⟨rfl, rfl, by dsimp only; omega, by dsimp only; omega, ?_⟩
        dsimp only
        omega

theorem findBestPath_spec {W H : ℤ} {g : Grid} {x y gravity : ℤ}
    {friction : Frac} {rng : Rng} {mv : Move} {rng2 : Rng}
    (hy0 : 0 ≤ y) (hyH : y < H)
    (h : findBestPath W H g x y gravity friction rng = some (some mv, rng2)) :
    (0 ≤ mv.x ∧ mv.x < W ∧ 0 ≤ mv.y ∧ mv.y < H) ∧
    (mv.mtype = MoveType.gap ∨ getCell g mv.x mv.y = some empty) ∧
    (mv.x ≠ x ∨ mv.y = y + gravity) ∧
    (mv.mtype = MoveType.gap → mv.y = y + gravity) := by
  unfold findBestPath at h
  split at h
  · simp at h
  next hnb =>
    push_neg at hnb
    rw [optBind_eq_some] at h
    obtain ⟨b, hb, h⟩ := h
    split at h
    next hbt =>
      subst hbt
      simp only [Option.pure_def, Option.some_inj, Prod.mk.injEq] at h
      obtain ⟨hmv, -⟩ := h
      obtain ⟨hx0, hxW, hny0, hnyH, hcell⟩ := canMoveTo_true hb
      subst hmv
      refine ⟨⟨by dsimp only; omega, by dsimp only; omega,
        by dsimp only; omega, by dsimp only; omega⟩,
        Or.inr hcell, Or.inr rfl, ?_⟩
      intro hc
      simp at hc
    · rcases hd1 : draw rng with ⟨p1, rng1⟩
      rw [hd1] at h
      dsimp only at h
      rcases hd2 : draw rng1 with ⟨p2, rngd2⟩
      rw [hd2] at h
      dsimp only at h
      rw [optBind_eq_some] at h
      obtain ⟨dres, hdres, h⟩ := h
      cases dres with
      | some mvd =>
          dsimp only at h
          simp only [Option.pure_def, Option.some_inj, Prod.mk.injEq] at h
          obtain ⟨hmv, -⟩ := h
          subst hmv
          obtain ⟨h1, h2, ⟨d, hd, h3⟩, h4, h5, h6⟩ := diagGo_spec _ _ hdres
          have hdne : d ≠ 0 := by
            split at hd <;> (simp at hd; rcases hd with rfl | rfl <;> omega)
          refine ⟨⟨h4, h5, by omega, by omega⟩,
            Or.inr (by rw [h1]; exact h6), Or.inl (by omega), ?_⟩
          intro hc
          rw [h2] at hc
          simp at hc
      | none =>
          dsimp only at h
          rw [optBind_eq_some] at h
          obtain ⟨gap, hgap, h⟩ := h
          cases gap with
          | some mvg =>
              dsimp only at h
              simp only [Option.pure_def, Option.some_inj, Prod.mk.injEq] at h
              obtain ⟨hmv, -⟩ := h
              subst hmv
              obtain ⟨h1, h2, h3, h4, h5⟩ := findGapInBarrier_spec hgap
              exact ⟨⟨h3, h4, by omega, by omega⟩, Or.inl h1,
                Or.inl h5, fun _ => h2⟩
          | none =>
              dsimp only at h
              obtain ⟨h1, h2, h3, h4, h5, h6⟩ := tryLateralSlide_spec h
              refine ⟨⟨h4, h5, by omega, by omega⟩,
                Or.inr (by rw [h1]; exact h6), Or.inl (by omega), ?_⟩
              intro hc
              rw [h2] at hc
              simp at hc

/-! ## Totality and shapes of the bubble rules -/

theorem applyBuoyancy_isSome {W H : ℤ} {g : Grid} (hwf : wfGrid W H g)
    (x y gravity : ℤ) (rng : Rng) (hx0 : 0 ≤ x) (hxW : x < W) :
    ∃ r, applyBuoyancy W H g x y gravity rng = some r := by
  unfold applyBuoyancy
  split
  next hin =>
    obtain ⟨c, hc⟩ :=
      getCell_isSome hwf x (y - gravity) hx0 hxW (by omega) (by omega)
    rw [hc, optBind_some]
    split
    · rcases hd : draw rng with ⟨r, rngd⟩
      dsimp only
      split
      · exact ⟨_, rfl⟩
      · exact ⟨_, rfl⟩
    · exact ⟨_, rfl⟩
  · exact ⟨_, rfl⟩

theorem applyBuoyancy_spec {W H : ℤ} {g : Grid} {x y gravity : ℤ}
    {rng : Rng} {c : Coord} {rng2 : Rng}
    (h : applyBuoyancy W H g x y gravity rng = some (some c, rng2)) :
    c = (x, y - gravity) ∧ 0 ≤ y - gravity ∧ y - gravity < H := by
  unfold applyBuoyancy at h
  split at h
  next hin =>
    rw [optBind_eq_some] at h
    obtain ⟨above, habove, h⟩ := h
    split at h
    · rcases hd : draw rng with ⟨r, rngd⟩
      rw [hd] at h
      dsimp only at h
      split at h
      · simp only [Option.pure_def, Option.some_inj, Prod.mk.injEq] at h
        exact ⟨h.1.symm, hin.1, hin.2⟩
      · simp at h
    · simp at h
  · simp at h

theorem applySpreadForce_isSome {W H : ℤ} {g : Grid} (hwf : wfGrid W H g)
    (cluster : Option Cluster) (x y : ℤ) (rng : Rng)
    (hy0 : 0 ≤ y) (hyH : y < H) :
    ∃ r, applySpreadForce W H g cluster x y rng = some r := by
  cases cluster with
  | none => exact ⟨(none, rng), rfl⟩
  | some cl =>
      unfold applySpreadForce
      dsimp only
      split
      · exact ⟨_, rfl⟩
      · split
        next hin =>
          obtain ⟨t, ht⟩ := getCell_isSome hwf (x + spreadDir cl x) y
            (by omega) (by omega) hy0 hyH
          rw [ht, optBind_some]
          split
          · rcases hd : draw rng with ⟨r, rngd⟩
            dsimp only
            split
            · exact ⟨_, rfl⟩
            · exact ⟨_, rfl⟩
          · exact ⟨_, rfl⟩
        · exact ⟨_, rfl⟩

theorem applySpreadForce_spec {W H : ℤ} {g : Grid} {cluster : Option Cluster}
    {x y : ℤ} {rng : Rng} {c : Coord} {rng2 : Rng}
    (h : applySpreadForce W H g cluster x y rng = some (some c, rng2)) :
    c.2 = y ∧ 0 ≤ c.1 ∧ c.1 < W ∧ c.1 ≠ x := by
  cases cluster with
  | none => simp [applySpreadForce] at h
  | some cl =>
      unfold applySpreadForce at h
      dsimp only at h
      split at h
      · simp at h
      · split at h
        next hin =>
          rw [optBind_eq_some] at h
          obtain ⟨target, htar, h⟩ := h
          split at h
          · rcases hd : draw rng with ⟨r, rngd⟩
            rw [hd] at h
            dsimp only at h
            split at h
            · simp only [Option.pure_def, Option.some_inj, Prod.mk.injEq] at h
              obtain ⟨hc, -⟩ := h
              subst hc
              have hsd : spreadDir cl x = -1 ∨ spreadDir cl x = 1 := by
                unfold spreadDir
                split
                · exact Or.inl rfl
                · exact Or.inr rfl
              exact ⟨rfl, by dsimp only; omega, by dsimp only; omega,
                by dsimp only; omega⟩
            · simp at h
          · simp at h
        · simp at h

theorem attractionScan_isSome {W H : ℤ} {g : Grid} (hwf : wfGrid W H g)
    (x y : ℤ) :
    ∀ (pairs : List (ℤ × ℤ)) (best : Option (ℤ × ℤ × Frac)),
    ∃ r, attractionScan W H g x y pairs best = some r := by
  intro pairs
  induction pairs with
  | nil => exact fun best => ⟨best, rfl⟩
  | cons p rest ih =>
      intro best
      obtain ⟨py, px⟩ := p
      rw [attractionScan.eq_def]
      dsimp only
      split
      · exact ih best
      · split
        next hin =>
          obtain ⟨c, hc⟩ := getCell_isSome hwf (x + px) (y + py)
            (by omega) (by omega) (by omega) (by omega)
          rw [hc, optBind_some]
          split
          · split
            · exact ih _
            · exact ih best
          · exact ih best
        · exact ih best

theorem attractionMove_isSome (W H x y newX newY : ℤ) (rng : Rng) :
    ∃ r, attractionMove W H x y newX newY rng = some r := by
  unfold attractionMove
  split
  · exact ⟨_, rfl⟩
  · exact ⟨_, rfl⟩

theorem attractionMove_spec {W H x y newX newY : ℤ} {rng : Rng}
    {c : Coord} {rng2 : Rng}
    (h : attractionMove W H x y newX newY rng = some (some c, rng2)) :
    0 ≤ c.1 ∧ c.1 < W ∧ 0 ≤ c.2 ∧ c.2 < H ∧ (c.1 ≠ x ∨ c.2 ≠ y) := by
  unfold attractionMove at h
  split at h
  next hcond =>
    simp only [Option.pure_def, Option.some_inj, Prod.mk.injEq] at h
    obtain ⟨hc, -⟩ := h
    subst hc
    obtain ⟨hc1, hc2, hc3, hc4, hc5⟩ := hcond
    exact ⟨hc1, hc2, hc3, hc4, hc5⟩
  · simp at h

theorem applyAttraction_isSome {W H : ℤ} {g : Grid} (hwf : wfGrid W H g)
    (x y : ℤ) (rng : Rng) :
    ∃ r, applyAttraction W H g x y rng = some r := by
  unfold applyAttraction
  obtain ⟨best, hbest⟩ := attractionScan_isSome hwf x y _ none
  rw [hbest, optBind_some]
  cases best with
  | none => exact ⟨_, rfl⟩
  | some t =>
      obtain ⟨dx, dy, m⟩ := t
      dsimp only
      rcases hd1 : draw rng with ⟨r, rng1⟩
      dsimp only
      split
      · rcases hd2 : draw rng1 with ⟨r2, rngx⟩
        dsimp only
        rcases hd3 : draw rngx with ⟨r3, rngy⟩
        dsimp only
        exact attractionMove_isSome W H x y _ _ rngy
      · exact ⟨_, rfl⟩

theorem applyAttraction_spec {W H : ℤ} {g : Grid} {x y : ℤ} {rng : Rng}
    {c : Coord} {rng2 : Rng}
    (h : applyAttraction W H g x y rng = some (some c, rng2)) :
    0 ≤ c.1 ∧ c.1 < W ∧ 0 ≤ c.2 ∧ c.2 < H ∧ (c.1 ≠ x ∨ c.2 ≠ y) := by
  unfold applyAttraction at h
  rw [optBind_eq_some] at h
  obtain ⟨best, hbest, h⟩ := h
  cases best with
  | none => simp at h
  | some t =>
      obtain ⟨dx, dy, m⟩ := t
      dsimp only at h
      rcases hd1 : draw rng with ⟨r, rng1⟩
      rw [hd1] at h
      dsimp only at h
      split at h
      · rcases hd2 : draw rng1 with ⟨r2, rngx⟩
        rw [hd2] at h
        dsimp only at h
        rcases hd3 : draw rngx with ⟨r3, rngy⟩
        rw [hd3] at h
        dsimp only at h
        exact attractionMove_spec h
      · simp at h

/-! ## Totality of the rule dispatch -/

theorem setCell2_total {W H : ℤ} {newGrid : Grid} (hwfN : wfGrid W H newGrid)
    {x1 y1 x2 y2 : ℤ} (c1 c2 : Cell)
    (h10 : 0 ≤ x1) (h1W : x1 < W) (h1y : 0 ≤ y1) (h1H : y1 < H)
    (h20 : 0 ≤ x2) (h2W : x2 < W) (h2y : 0 ≤ y2) (h2H : y2 < H) :
    ∃ g1 g2, setCell newGrid x1 y1 c1 = some g1 ∧
      setCell g1 x2 y2 c2 = some g2 ∧ wfGrid W H g2 := by
  obtain ⟨g1, h1, hw1⟩ := setCell_some hwfN h10 h1W h1y h1H c1
  obtain ⟨g2, h2, hw2⟩ := setCell_some hw1 h20 h2W h2y h2H c2
  exact ⟨g1, g2, h1, h2, hw2⟩

theorem airNaturalRise_total {W H : ℤ} {newGrid : Grid}
    (hwfN : wfGrid W H newGrid) (x y nextY : ℤ) (below : Cell) (rng : Rng)
    (hx0 : 0 ≤ x) (hxW : x < W) (hy0 : 0 ≤ y) (hyH : y < H)
    (hn0 : 0 ≤ nextY) (hnH : nextY < H) :
    ∃ res, airNaturalRise x y nextY below newGrid rng = some res ∧
      wfGrid W H res.1 := by
  unfold airNaturalRise
  split
  · obtain ⟨g1, g2, hg1, hg2, hwf2⟩ :=
      setCell2_total hwfN air below hx0 hxW hn0 hnH hx0 hxW hy0 hyH
    exact ⟨(g2, rng, [(x, nextY), (x, y)]),
      by rw [hg1, optBind_some, hg2, optBind_some]; rfl, hwf2⟩
  · exact ⟨(newGrid, rng, []), rfl, hwfN⟩

theorem airAttractionStep_total {W H : ℤ} {gridOld newGrid : Grid}
    (hwf : wfGrid W H gridOld) (hwfN : wfGrid W H newGrid)
    (x y nextY : ℤ) (below : Cell) (rng : Rng)
    (hx0 : 0 ≤ x) (hxW : x < W) (hy0 : 0 ≤ y) (hyH : y < H)
    (hn0 : 0 ≤ nextY) (hnH : nextY < H) :
    ∃ res, airAttractionStep W H gridOld x y nextY below newGrid rng
      = some res ∧ wfGrid W H res.1 := by
  unfold airAttractionStep
  obtain ⟨⟨att, rng1⟩, hatt⟩ := applyAttraction_isSome hwf x y rng
  rw [hatt, optBind_some]
  dsimp only
  cases att with
  | none =>
      exact airNaturalRise_total hwfN x y nextY below rng1 hx0 hxW hy0 hyH hn0 hnH
  | some c =>
      obtain ⟨ax, ay⟩ := c
      obtain ⟨hc1, hc2, hc3, hc4, -⟩ := applyAttraction_spec hatt
      dsimp only at hc1 hc2 hc3 hc4
      obtain ⟨target, htar⟩ := getCell_isSome hwf ax ay hc1 hc2 hc3 hc4
      dsimp only
      rw [htar, optBind_some]
      split
      · obtain ⟨g1, g2, hg1, hg2, hwf2⟩ :=
          setCell2_total hwfN air target hc1 hc2 hc3 hc4 hx0 hxW hy0 hyH
        exact ⟨(g2, rng1, [(ax, ay), (x, y)]),
          by rw [hg1, optBind_some, hg2, optBind_some]; rfl, hwf2⟩
      · exact airNaturalRise_total hwfN x y nextY below rng1
          hx0 hxW hy0 hyH hn0 hnH

theorem airSpreadStep_total {W H : ℤ} {gridOld newGrid : Grid}
    (hwf : wfGrid W H gridOld) (hwfN : wfGrid W H newGrid)
    (clusters : List Cluster) (x y nextY : ℤ) (below : Cell) (rng : Rng)
    (hx0 : 0 ≤ x) (hxW : x < W) (hy0 : 0 ≤ y) (hyH : y < H)
    (hn0 : 0 ≤ nextY) (hnH : nextY < H) :
    ∃ res, airSpreadStep W H gridOld clusters x y nextY below newGrid rng
      = some res ∧ wfGrid W H res.1 := by
  unfold airSpreadStep
  obtain ⟨⟨spr, rng1⟩, hspr⟩ :=
    applySpreadForce_isSome hwf (clusterLookup clusters x y) x y rng hy0 hyH
  rw [hspr, optBind_some]
  dsimp only
  cases spr with
  | none =>
      exact airAttractionStep_total hwf hwfN x y nextY below rng1 hx0 hxW hy0
        hyH hn0 hnH
  | some c =>
      obtain ⟨sx, sy⟩ := c
      obtain ⟨hc1, hc2, hc3, -⟩ := applySpreadForce_spec hspr
      dsimp only at hc1 hc2 hc3
      have hsy0 : 0 ≤ sy := by omega
      have hsyH : sy < H := by omega
      obtain ⟨target, htar⟩ := getCell_isSome hwf sx sy hc2 hc3 hsy0 hsyH
      dsimp only
      rw [htar, optBind_some]
      split
      · obtain ⟨g1, g2, hg1, hg2, hwf2⟩ :=
          setCell2_total hwfN air target hc2 hc3 hsy0 hsyH hx0 hxW hy0 hyH
        exact ⟨(g2, rng1, [(sx, sy), (x, y)]),
          by rw [hg1, optBind_some, hg2, optBind_some]; rfl, hwf2⟩
      · exact airAttractionStep_total hwf hwfN x y nextY below rng1
          hx0 hxW hy0 hyH hn0 hnH

theorem waterSpreadStep_total {W H : ℤ} {gridOld newGrid : Grid}
    (hwf : wfGrid W H gridOld) (hwfN : wfGrid W H newGrid)
    (x y : ℤ) (rng : Rng)
    (hx0 : 0 ≤ x) (hxW : x < W) (hy0 : 0 ≤ y) (hyH : y < H) :
    ∃ res, waterSpreadStep W H gridOld x y newGrid rng = some res ∧
      wfGrid W H res.1 := by
  unfold waterSpreadStep
  rcases hd1 : draw rng with ⟨r, rng1⟩
  dsimp only
  split
  · rcases hd2 : draw rng1 with ⟨r2, rng2⟩
    dsimp only
    split
    next hin =>
      obtain ⟨side, hside⟩ := getCell_isSome hwf (x + dirOf r2) y
        hin.1 hin.2 hy0 hyH
      rw [hside, optBind_some]
      split
      · obtain ⟨g1, g2, hg1, hg2, hwf2⟩ := setCell2_total hwfN water empty
          hin.1 hin.2 hy0 hyH hx0 hxW hy0 hyH
        exact ⟨(g2, rng2, [(x + dirOf r2, y), (x, y)]),
          by rw [hg1, optBind_some, hg2, optBind_some]; rfl, hwf2⟩
      · exact ⟨(newGrid, rng2, []), rfl, hwfN⟩
    · exact ⟨(newGrid, rng2, []), rfl, hwfN⟩
  · exact ⟨(newGrid, rng1, []), rfl, hwfN⟩

theorem optBind_pure {α β : Type} (a : α) (f : α → Option β) :
    (do let x ← pure a; f x : Option β) = f a := rfl

theorem sandRule_total {W H : ℤ} {gridOld newGrid : Grid}
    (hwf : wfGrid W H gridOld) (hwfN : wfGrid W H newGrid)
    (gravity : ℤ) (x y : ℤ) (particle below : Cell) (props : Props)
    (rng : Rng) (hx0 : 0 ≤ x) (hxW : x < W) (hy0 : 0 ≤ y) (hyH : y < H) :
    ∃ res, sandRule W H gridOld gravity x y particle below newGrid props rng
      = some res ∧ wfGrid W H res.1 := by
  unfold sandRule
  split
  · obtain ⟨⟨lat, rng1⟩, hlat⟩ :=
      tryLateralSlide_isSome hwf x y (getProperties props x y).1 rng hy0
    rw [hlat, optBind_some]
    dsimp only
    cases lat with
    | some mv =>
        dsimp only
        obtain ⟨hmy, -, -, hmx0, hmxW, -⟩ := tryLateralSlide_spec hlat
        have hmy0 : 0 ≤ mv.y := by omega
        have hmyH : mv.y < H := by omega
        obtain ⟨g1, g2, hg1, hg2, hwf2⟩ := setCell2_total hwfN particle
          empty hmx0 hmxW hmy0 hmyH hx0 hxW hy0 hyH
        exact ⟨_, by rw [hg1, optBind_some, hg2, optBind_some]; rfl, hwf2⟩
    | none => exact ⟨(newGrid, props, rng1, []), rfl, hwfN⟩
  · split
    next hsb =>
      obtain ⟨⟨spr, rngA⟩, hspr⟩ := tryLateralSlide_isSome hwf x y
        ((getProperties props x y).1.mul ⟨1, 2⟩) rng hy0
      rw [hspr, optBind_some]
      dsimp only
      cases spr with
      | some mv =>
          dsimp only
          obtain ⟨hmy, -, -, hmx0, hmxW, -⟩ := tryLateralSlide_spec hspr
          have hmy0 : 0 ≤ mv.y := by omega
          have hmyH : mv.y < H := by omega
          obtain ⟨g1, g2, hg1, hg2, hwf2⟩ := setCell2_total hwfN particle
            empty hmx0 hmxW hmy0 hmyH hx0 hxW hy0 hyH
          exact ⟨_, by rw [hg1, optBind_some, hg2, optBind_some]; rfl, hwf2⟩
      | none =>
          obtain ⟨⟨mvO, rngB⟩, hfbp⟩ := findBestPath_isSome hwf x y
            gravity (getProperties props x y).1 rngA hy0
          rw [hfbp, optBind_some]
          dsimp only
          cases mvO with
          | some mv =>
              dsimp only
              obtain ⟨⟨hb1, hb2, hb3, hb4⟩, -, -, -⟩ :=
                findBestPath_spec hy0 hyH hfbp
              obtain ⟨target, htar⟩ :=
                getCell_isSome hwf mv.x mv.y hb1 hb2 hb3 hb4
              rw [htar, optBind_some]
              obtain ⟨g1, g2, hg1, hg2, hwf2⟩ := setCell2_total hwfN
                particle target hb1 hb2 hb3 hb4 hx0 hxW hy0 hyH
              exact ⟨_, by rw [hg1, optBind_some, hg2, optBind_some]; rfl,
                hwf2⟩
          | none => exact ⟨(newGrid, props, rngB, []), rfl, hwfN⟩
    next hnsb =>
      rw [optBind_pure]
      dsimp only
      obtain ⟨⟨mvO, rngB⟩, hfbp⟩ := findBestPath_isSome hwf x y
        gravity (getProperties props x y).1 rng hy0
      rw [hfbp, optBind_some]
      dsimp only
      cases mvO with
      | some mv =>
          dsimp only
          obtain ⟨⟨hb1, hb2, hb3, hb4⟩, -, -, -⟩ :=
            findBestPath_spec hy0 hyH hfbp
          obtain ⟨target, htar⟩ :=
            getCell_isSome hwf mv.x mv.y hb1 hb2 hb3 hb4
          rw [htar, optBind_some]
          obtain ⟨g1, g2, hg1, hg2, hwf2⟩ := setCell2_total hwfN
            particle target hb1 hb2 hb3 hb4 hx0 hxW hy0 hyH
          exact ⟨_, by rw [hg1, optBind_some, hg2, optBind_some]; rfl, hwf2⟩
      | none => exact ⟨(newGrid, props, rngB, []), rfl, hwfN⟩

theorem airRule_total {W H : ℤ} {gridOld newGrid : Grid}
    (hwf : wfGrid W H gridOld) (hwfN : wfGrid W H newGrid)
    (gravity : ℤ) (clusters : List Cluster) (x y : ℤ)
    (particle below : Cell) (props : Props) (rng : Rng)
    (hx0 : 0 ≤ x) (hxW : x < W) (hy0 : 0 ≤ y) (hyH : y < H)
    (hn0 : 0 ≤ y + gravity) (hnH : y + gravity < H) :
    ∃ res, airRule W H gridOld gravity clusters x y particle below newGrid
      props rng = some res ∧ wfGrid W H res.1 := by
  unfold airRule
  obtain ⟨⟨buoy, rng1⟩, hbuoy⟩ :=
    applyBuoyancy_isSome hwf x y gravity rng hx0 hxW
  rw [hbuoy, optBind_some]
  dsimp only
  cases buoy with
  | some c =>
      obtain ⟨bx, by2⟩ := c
      dsimp only
      obtain ⟨hceq, hb0, hbH⟩ := applyBuoyancy_spec hbuoy
      rw [Prod.mk.injEq] at hceq
      obtain ⟨hbx, hby⟩ := hceq
      have h1 : 0 ≤ bx := by omega
      have h2 : bx < W := by omega
      have h3 : 0 ≤ by2 := by omega
      have h4 : by2 < H := by omega
      obtain ⟨target, htar⟩ := getCell_isSome hwf bx by2 h1 h2 h3 h4
      rw [htar, optBind_some]
      obtain ⟨g1, g2, hg1, hg2, hwf2⟩ := setCell2_total hwfN particle
        target h1 h2 h3 h4 hx0 hxW hy0 hyH
      exact ⟨_, by rw [hg1, optBind_some, hg2, optBind_some]; rfl, hwf2⟩
  | none =>
      dsimp only
      obtain ⟨⟨g2, rng2, log⟩, hstep, hwf2⟩ := airSpreadStep_total hwf
        hwfN clusters x y (y + gravity) below rng1 hx0 hxW hy0 hyH hn0 hnH
      rw [hstep, optBind_some]
      dsimp only
      exact ⟨(g2, props, rng2, log), rfl, hwf2⟩

theorem waterRule_total {W H : ℤ} {gridOld newGrid : Grid}
    (hwf : wfGrid W H gridOld) (hwfN : wfGrid W H newGrid)
    (gravity : ℤ) (x y : ℤ) (particle below : Cell) (props : Props)
    (rng : Rng) (hx0 : 0 ≤ x) (hxW : x < W) (hy0 : 0 ≤ y) (hyH : y < H)
    (hn0 : 0 ≤ y + gravity) (hnH : y + gravity < H) :
    ∃ res, waterRule W H gridOld gravity x y particle below newGrid props rng
      = some res ∧ wfGrid W H res.1 := by
  unfold waterRule
  split
  · split
    · obtain ⟨g1, g2, hg1, hg2, hwf2⟩ := setCell2_total hwfN particle
        below hx0 hxW hn0 hnH hx0 hxW hy0 hyH
      exact ⟨_, by rw [hg1, optBind_some, hg2, optBind_some]; rfl, hwf2⟩
    · rcases hd1 : draw rng with ⟨r1, rng1⟩
      dsimp only
      split
      · rcases hd2 : draw rng1 with ⟨r2, rng2⟩
        dsimp only
        split
        next hdin =>
          obtain ⟨diag, hdiag⟩ := getCell_isSome hwf (x + dirOf r2)
            (y + gravity) hdin.1 hdin.2 hn0 hnH
          rw [hdiag, optBind_some]
          split
          · obtain ⟨g1, g2, hg1, hg2, hwf2⟩ := setCell2_total hwfN
              particle empty hdin.1 hdin.2 hn0 hnH hx0 hxW hy0 hyH
            exact ⟨_, by rw [hg1, optBind_some, hg2, optBind_some]; rfl, hwf2⟩
          · obtain ⟨⟨g2, rng3, log⟩, hws, hwf2⟩ :=
              waterSpreadStep_total hwf hwfN x y rng2 hx0 hxW hy0 hyH
            rw [hws, optBind_some]
            dsimp only
            exact ⟨(g2, props, rng3, log), rfl, hwf2⟩
        · obtain ⟨⟨g2, rng3, log⟩, hws, hwf2⟩ :=
            waterSpreadStep_total hwf hwfN x y rng2 hx0 hxW hy0 hyH
          rw [hws, optBind_some]
          dsimp only
          exact ⟨(g2, props, rng3, log), rfl, hwf2⟩
      · obtain ⟨⟨g2, rng3, log⟩, hws, hwf2⟩ :=
          waterSpreadStep_total hwf hwfN x y rng1 hx0 hxW hy0 hyH
        rw [hws, optBind_some]
        dsimp only
        exact ⟨(g2, props, rng3, log), rfl, hwf2⟩
  · obtain ⟨⟨g2, rng3, log⟩, hws, hwf2⟩ :=
      waterSpreadStep_total hwf hwfN x y rng hx0 hxW hy0 hyH
    rw [hws, optBind_some]
    dsimp only
    exact ⟨(g2, props, rng3, log), rfl, hwf2⟩

theorem updateParticle_total {W H : ℤ} {gridOld newGrid : Grid}
    (hwf : wfGrid W H gridOld) (hwfN : wfGrid W H newGrid)
    (gravity : ℤ) (clusters : List Cluster) (x y : ℤ) (props : Props)
    (rng : Rng) (hx0 : 0 ≤ x) (hxW : x < W) (hy0 : 0 ≤ y) (hyH : y < H) :
    ∃ res, updateParticle W H gridOld gravity clusters x y newGrid props rng
      = some res ∧ wfGrid W H res.1 := by
  unfold updateParticle
  obtain ⟨particle, hpart⟩ := getCell_isSome hwf x y hx0 hxW hy0 hyH
  rw [hpart, optBind_some]
  split
  · exact ⟨(newGrid, props, rng, []), rfl, hwfN⟩
  · split
    · exact ⟨(newGrid, props, rng, []), rfl, hwfN⟩
    next hnb =>
      push_neg at hnb
      obtain ⟨below, hbelow⟩ :=
        getCell_isSome hwf x (y + gravity) hx0 hxW hnb.1 hnb.2
      rw [hbelow, optBind_some]
      split
      · exact sandRule_total hwf hwfN gravity x y particle below props rng
          hx0 hxW hy0 hyH
      · split
        · exact airRule_total hwf hwfN gravity clusters x y particle below
            props rng hx0 hxW hy0 hyH hnb.1 hnb.2
        · split
          · exact waterRule_total hwf hwfN gravity x y particle below props
              rng hx0 hxW hy0 hyH hnb.1 hnb.2
          · exact ⟨(newGrid, props, rng, []), rfl, hwfN⟩

theorem cellOrder_bounds {W H gravity : ℤ} {c : Coord}
    (hc : c ∈ cellOrder W H gravity) :
    0 ≤ c.1 ∧ c.1 < W ∧ 0 ≤ c.2 ∧ c.2 < H := by
  unfold cellOrder at hc
  simp only [List.mem_flatMap, List.mem_map] at hc
  obtain ⟨yy, hyy, xx, hxx, hceq⟩ := hc
  have hyy2 : 0 ≤ yy ∧ yy ≤ H - 1 := by
    split at hyy
    · rw [List.mem_reverse] at hyy
      exact mem_intRange.mp hyy
    · exact mem_intRange.mp hyy
  have hxx2 := mem_intRange.mp hxx
  subst hceq
  dsimp only
  omega

theorem update_total {W H : ℤ} {g : Grid} (hwf : wfGrid W H g)
    (gravity : ℤ) (props : Props) (rng : Rng) :
    ∃ st, update W H g gravity props rng = some st ∧ wfGrid W H st.1 := by
  unfold update
  refine foldlM_isSome_inv (fun (st : TickState) => wfGrid W H st.1)
    (tickCell W H g gravity (findClusters W H g 0).1)
    (cellOrder W H gravity) (g, props, rng, []) hwf ?_
  intro st c hc hst
  obtain ⟨hc1, hc2, hc3, hc4⟩ := cellOrder_bounds hc
  obtain ⟨res, hres, hwfres⟩ := updateParticle_total hwf hst gravity
    (findClusters W H g 0).1 c.1 c.2 st.2.1 st.2.2.1 hc1 hc2 hc3 hc4
  obtain ⟨ng2, p2, r2, log⟩ := res
  refine ⟨(ng2, p2, r2, st.2.2.2 ++ [(c, log)]), ?_, hwfres⟩
  unfold tickCell
  rw [hres, optBind_some]
  rfl

/-! ## Claim theorems -/

/-- C2: for every N×M grid, either gravity sign and any random stream and
property store, a tick never reads or writes a coordinate outside
[0,N)×[0,M): every access in the model is an `Option`-guarded access
that fails on an out-of-range coordinate, and the tick always returns
`some` — out-of-range targets are treated as "move unavailable". -/
theorem tick_bounds_safety (W H : ℤ) (g : Grid) (gravity : ℤ)
    (props : Props) (rng : Rng) (hwf : wfGrid W H g)
    (hgrav : gravity = 1 ∨ gravity = -1) :
    (update W H g gravity props rng).isSome := by
  obtain ⟨st, hst, -⟩ := update_total hwf gravity props rng
  rw [hst]
  rfl

theorem tick_bounds_safety_witness :
    wfGrid 1 1 [[Cell.empty]] ∧
    (update 1 1 [[Cell.empty]] 1 (fun _ => none) []).isSome :=
  ⟨by decide,
    tick_bounds_safety 1 1 [[Cell.empty]] 1 (fun _ => none) [] (by decide)
      (Or.inl rfl)⟩

/-- C5 (code bug): on the 1×3 column [SandHeavy; Air; Water] with
gravity +1 and a random stream whose first draw 1/2 fails the buoyancy
probability (so buoyancy, spread and attraction all fail), the claim
says the Air cell must swap with the buoyant-side cell (0,0) — which is
denser than air and not Air.  Instead the code's fallback (source lines
768–773, commented "Natural rising for bubbles") swaps with the cell at
(x, y + gravitySign): the bubble sinks to (0,2) and the water rises. -/
theorem air_fallback_swaps_with_gravity_side :
    (update 1 3 [[sandHeavy], [air], [water]] 1 (fun _ => none)
      [⟨1, 2⟩]).map (fun st => st.1) = some [[sandHeavy], [water], [air]] ∧
    density air < density sandHeavy ∧ sandHeavy ≠ air := by
  refine ⟨by decide, by decide, by decide⟩

/-- C8: on a 3×3 grid with a sand cell (of any of the three sand types)
at (1,0) and Empty elsewhere, with gravity +1, one tick moves the sand
to (1,1) and leaves (1,0) Empty, for every random stream and property
store: the straight fall consumes no randomness. -/
theorem straight_settle_scenario (s : Cell) (hs : isSand s = true)
    (props : Props) (rng : Rng) :
    (update 3 3 [[empty, s, empty], [empty, empty, empty],
      [empty, empty, empty]] 1 props rng).map (fun st => st.1)
    = some [[empty, empty, empty], [empty, s, empty],
      [empty, empty, empty]] := by
  cases s
  · simp [isSand] at hs
  · simp [isSand] at hs
  · rfl
  · rfl
  · rfl
  · simp [isSand] at hs

theorem straight_settle_scenario_witness :
    isSand sandHeavy = true ∧
    (update 3 3 [[empty, sandHeavy, empty], [empty, empty, empty],
      [empty, empty, empty]] 1 (fun _ => none) []).map (fun st => st.1)
    = some [[empty, empty, empty], [empty, sandHeavy, empty],
      [empty, empty, empty]] :=
  ⟨by decide, straight_settle_scenario sandHeavy (by decide)
    (fun _ => none) []⟩

/-! ## Cluster determinism -/

theorem floodFillGo_id_irrel (W H : ℤ) (g : Grid) :
    ∀ (fuel : ℕ) (stack visited : List Coord) (cl cl2 : Cluster),
    cl.cells = cl2.cells →
    (floodFillGo W H g fuel stack visited cl).1.cells
      = (floodFillGo W H g fuel stack visited cl2).1.cells ∧
    (floodFillGo W H g fuel stack visited cl).2
      = (floodFillGo W H g fuel stack visited cl2).2 := by
  intro fuel
  induction fuel with
  | zero => intro stack visited cl cl2 hc; exact ⟨hc, rfl⟩
  | succ n ih =>
      intro stack visited cl cl2 hc
      cases stack with
      | nil => exact ⟨hc, rfl⟩
      | cons c rest =>
          obtain ⟨cx, cy⟩ := c
          rw [floodFillGo, floodFillGo]
          split
          · exact ih rest visited cl cl2 hc
          · split
            · exact ih rest visited cl cl2 hc
            · split
              · exact ih rest visited cl cl2 hc
              · exact ih _ _ (addCell cl cx cy) (addCell cl2 cx cy)
                  (by simp [addCell, hc])

theorem findClustersGo_id_irrel (W H : ℤ) (g : Grid) :
    ∀ (cells visited : List Coord) (acc acc2 : List Cluster) (nid nid2 : ℕ),
    acc.map Cluster.cells = acc2.map Cluster.cells →
    (findClustersGo W H g cells visited acc nid).1.map Cluster.cells
      = (findClustersGo W H g cells visited acc2 nid2).1.map Cluster.cells := by
  intro cells
  induction cells with
  | nil => intro visited acc acc2 nid nid2 hacc; exact hacc
  | cons c rest ih =>
      intro visited acc acc2 nid nid2 hacc
      obtain ⟨cx, cy⟩ := c
      rw [findClustersGo, findClustersGo]
      split
      · rcases hf1 : floodFill W H g cx cy visited nid with ⟨cl1, vis1⟩
        rcases hf2 : floodFill W H g cx cy visited nid2 with ⟨cl2, vis2⟩
        have hrel := floodFillGo_id_irrel W H g (floodFillFuel W H)
          [(cx, cy)] visited ⟨nid, [], none⟩ ⟨nid2, [], none⟩ rfl
        unfold floodFill at hf1 hf2
        rw [hf1, hf2] at hrel
        dsimp only at hrel
        obtain ⟨hcells, hvis⟩ := hrel
        dsimp only
        rw [hcells, hvis]
        split
        · exact ih vis2 (acc ++ [cl1]) (acc2 ++ [cl2]) (nid + 1) (nid2 + 1)
            (by simp [hacc, hcells])
        · exact ih vis2 acc acc2 (nid + 1) (nid2 + 1) hacc
      · exact ih visited acc acc2 nid nid2 hacc

/-- C9: `findClusters` consumes no randomness (it takes no random
stream at all) and, run twice in sequence on the same grid through the
manager state (the second run starting from the advanced
`nextClusterId`), produces the same list of cluster cell-membership
sets; only the cluster ids differ. -/
theorem findClusters_deterministic (W H : ℤ) (g : Grid) (nid : ℕ) :
    ((findClusters W H g nid).1).map Cluster.cells
      = ((findClusters W H g ((findClusters W H g nid).2)).1).map
          Cluster.cells := by
  unfold findClusters
  exact findClustersGo_id_irrel W H g _ [] [] [] _ _ rfl

/-- C4 (counterexample): a 1×3 column with SandHeavy at (0,0), Air at
(0,1) and Water at (0,2), gravity +1, random stream [1/10].  The sand
cell has Air directly in the gravity direction, yet after one tick the
sand sits at (0,1) — it moved vertically into the Air cell's position,
because the Air cell's buoyancy rule (draw 1/10 < 0.25) swapped the two
cells before the sand cell was processed. -/
theorem sand_above_air_moved_vertically_by_bubble :
    getCell [[sandHeavy], [air], [water]] 0 0 = some sandHeavy ∧
    getCell [[sandHeavy], [air], [water]] 0 1 = some air ∧
    (update 1 3 [[sandHeavy], [air], [water]] 1 (fun _ => none)
      [⟨1, 10⟩]).map (fun st => st.1) = some [[air], [sandHeavy], [water]] := by
  refine ⟨by decide, by decide, by decide⟩

/-- C4 (amended): the rule invocation for a sand cell whose
gravity-direction neighbour is Air either writes nothing or writes
exactly a strictly lateral move — same row, adjacent column, into a
cell that was Empty in the read grid; the invocation itself never moves
the sand vertically. -/
theorem sand_rule_air_below_only_lateral {W H : ℤ} {gridOld newGrid : Grid}
    {gravity x y : ℤ} {clusters : List Cluster} {props : Props} {rng : Rng}
    {particle : Cell} {res : Grid × Props × Rng × List Coord}
    (hpart : getCell gridOld x y = some particle)
    (hsand : isSand particle = true)
    (hair : getCell gridOld x (y + gravity) = some air)
    (h : updateParticle W H gridOld gravity clusters x y newGrid props rng
      = some res) :
    (res.1 = newGrid ∧ res.2.2.2 = []) ∨
    ∃ lx g1, (lx = x - 1 ∨ lx = x + 1) ∧
      getCell gridOld lx y = some empty ∧
      res.2.2.2 = [(lx, y), (x, y)] ∧
      setCell newGrid lx y particle = some g1 ∧
      setCell g1 x y empty = some res.1 := by
  unfold updateParticle at h
  rw [hpart, optBind_some] at h
  split at h
  next hpe => rw [hpe] at hsand; simp [isSand] at hsand
  split at h
  · left
    simp only [Option.pure_def, Option.some_inj] at h
    rw [← h]
    exact ⟨rfl, rfl⟩
  · rw [hair, optBind_some] at h
    unfold sandRule at h
    rw [if_pos rfl] at h
    rw [optBind_eq_some] at h
    obtain ⟨⟨lat, rng1⟩, hlat, h⟩ := h
    dsimp only at h
    cases lat with
    | none =>
        left
        simp only [Option.pure_def, Option.some_inj] at h
        rw [← h]
        exact ⟨rfl, rfl⟩
    | some mv =>
        obtain ⟨hmy, -, hmx, -, -, hcell⟩ := tryLateralSlide_spec hlat
        rw [optBind_eq_some] at h
        obtain ⟨g1, hg1, h⟩ := h
        rw [optBind_eq_some] at h
        obtain ⟨g2, hg2, h⟩ := h
        simp only [Option.pure_def, Option.some_inj] at h
        right
        rw [hmy] at hg1
        refine ⟨mv.x, g1, hmx, hcell, ?_, hg1, ?_⟩
        · rw [← h]
          dsimp only
          rw [hmy]
        · rw [← h]
          dsimp only
          exact hg2

theorem sand_rule_air_below_only_lateral_witness :
    ((([[sandHeavy], [air], [water]] : Grid), (fun _ => none : Props),
        ([] : Rng), ([] : List Coord)).1 = [[sandHeavy], [air], [water]] ∧
      (([[sandHeavy], [air], [water]] : Grid), (fun _ => none : Props),
        ([] : Rng), ([] : List Coord)).2.2.2 = []) ∨
    ∃ lx g1, (lx = 0 - 1 ∨ lx = 0 + 1) ∧
      getCell [[sandHeavy], [air], [water]] lx 0 = some empty ∧
      (([[sandHeavy], [air], [water]] : Grid), (fun _ => none : Props),
        ([] : Rng), ([] : List Coord)).2.2.2 = [(lx, 0), (0, 0)] ∧
      setCell [[sandHeavy], [air], [water]] lx 0 sandHeavy = some g1 ∧
      setCell g1 0 0 empty = some (([[sandHeavy], [air], [water]] : Grid),
        (fun _ => none : Props), ([] : Rng), ([] : List Coord)).1 :=
  @sand_rule_air_below_only_lateral 1 3 [[sandHeavy], [air], [water]]
    [[sandHeavy], [air], [water]] 1 0 0 [] (fun _ => none) [] sandHeavy
    ([[sandHeavy], [air], [water]], (fun _ => none : Props), ([] : Rng),
      ([] : List Coord))
    (by decide) (by decide) (by decide) rfl

/-- C6 (counterexample): on the 2×2 grid with Water at (0,0) and Empty
elsewhere, gravity +1 and random stream [3/4, 3/4], the water makes its
straight vertical move — and the tick returns with the random stream
untouched: the horizontal-spread attempt (which always consumes a draw,
and whose gate 3/4 > 1/2 and Empty side cell (1,0) would have admitted
a spread) was never made, and (1,0) stays Empty.  The spread is not
independent of the vertical movement. -/
theorem water_vertical_move_skips_spread :
    (update 2 2 [[water, empty], [empty, empty]] 1 (fun _ => none)
      [⟨3, 4⟩, ⟨3, 4⟩]).map (fun st => (st.1, st.2.2.1))
    = some ([[empty, empty], [water, empty]], [⟨3, 4⟩, ⟨3, 4⟩]) ∧
    Frac.ltB ⟨1, 2⟩ ⟨3, 4⟩ = true ∧
    getCell [[water, empty], [empty, empty]] 1 0 = some empty := by
  refine ⟨by decide, by decide, by decide⟩

/-- C6 (amended): when a water cell takes the straight vertical move,
the rule invocation returns at once: it writes exactly the vertical
pair of cells and leaves the property store and the random stream
untouched — in particular the horizontal-spread attempt, which always
consumes a random draw, is not made after a vertical move. -/
theorem water_straight_move_returns_without_spread {W H : ℤ}
    {gridOld newGrid : Grid} {gravity x y : ℤ} {clusters : List Cluster}
    {props : Props} {rng : Rng} {below : Cell}
    (hpart : getCell gridOld x y = some water)
    (hnb : ¬(y + gravity < 0 ∨ H ≤ y + gravity))
    (hbelow : getCell gridOld x (y + gravity) = some below)
    (hmove : (0 < gravity ∧ density below < density water) ∨
      (gravity < 0 ∧ density water < density below))
    (hstraight : below = empty ∨ density below < density water) :
    updateParticle W H gridOld gravity clusters x y newGrid props rng =
      (do
        let g1 ← setCell newGrid x (y + gravity) water
        let g2 ← setCell g1 x y below
        pure (g2, props, rng, [(x, y + gravity), (x, y)])) := by
  unfold updateParticle
  rw [hpart, optBind_some, if_neg (by simp : ¬(water = empty)), if_neg hnb,
    hbelow, optBind_some]
  rw [if_neg (by simp [isSand] : ¬(isSand water = true)),
    if_neg (by simp : ¬(water = air)), if_pos rfl]
  unfold waterRule
  rw [if_pos hmove, if_pos hstraight]

theorem water_straight_move_returns_without_spread_witness :
    updateParticle 1 2 [[water], [empty]] 1 [] 0 0 [[water], [empty]]
      (fun _ => none) [⟨1, 3⟩] =
      (do
        let g1 ← setCell [[water], [empty]] 0 (0 + 1) water
        let g2 ← setCell g1 0 0 empty
        pure (g2, (fun _ => none : Props), ([⟨1, 3⟩] : Rng),
          [((0 : ℤ), (0 : ℤ) + 1), ((0 : ℤ), (0 : ℤ))])) :=
  @water_straight_move_returns_without_spread 1 2 [[water], [empty]]
    [[water], [empty]] 1 0 0 [] (fun _ => none) [⟨1, 3⟩] empty
    (by decide) (by decide) (by decide) (by decide) (by decide)

/-! ## The shape of an invocation's writes -/

theorem dirOf_pm (r : Frac) : dirOf r = -1 ∨ dirOf r = 1 := by
  unfold dirOf
  split
  · exact Or.inl rfl
  · exact Or.inr rfl

theorem waterSpreadStep_shape {W H : ℤ} {gridOld newGrid : Grid} {x y : ℤ}
    {rng : Rng} {res : Grid × Rng × List Coord}
    (h : waterSpreadStep W H gridOld x y newGrid rng = some res) :
    (res.2.2 = [] ∧ res.1 = newGrid) ∨
    ∃ sx g1, sx ≠ x ∧ getCell gridOld sx y = some empty ∧
      res.2.2 = [(sx, y), (x, y)] ∧
      setCell newGrid sx y water = some g1 ∧
      setCell g1 x y empty = some res.1 := by
  unfold waterSpreadStep at h
  rcases hd1 : draw rng with ⟨r, rng1⟩
  rw [hd1] at h
  dsimp only at h
  split at h
  · rcases hd2 : draw rng1 with ⟨r2, rng2⟩
    rw [hd2] at h
    dsimp only at h
    split at h
    next hin =>
      rw [optBind_eq_some] at h
      obtain ⟨side, hside, h⟩ := h
      split at h
      next hemp =>
        rw [optBind_eq_some] at h
        obtain ⟨g1, hg1, h⟩ := h
        rw [optBind_eq_some] at h
        obtain ⟨g2, hg2, h⟩ := h
        simp only [Option.pure_def, Option.some_inj] at h
        right
        refine ⟨x + dirOf r2, g1, ?_, ?_, ?_, hg1, ?_⟩
        · rcases dirOf_pm r2 with hq | hq <;> omega
        · rw [← hemp]; exact hside
        · rw [← h]
        · rw [← h]; exact hg2
      · left
        simp only [Option.pure_def, Option.some_inj] at h
        rw [← h]
        exact ⟨rfl, rfl⟩
    · left
      simp only [Option.pure_def, Option.some_inj] at h
      rw [← h]
      exact ⟨rfl, rfl⟩
  · left
    simp only [Option.pure_def, Option.some_inj] at h
    rw [← h]
    exact ⟨rfl, rfl⟩

theorem airNaturalRise_shape {x y nextY : ℤ} {below : Cell}
    {newGrid : Grid} {rng : Rng} {res : Grid × Rng × List Coord}
    (h : airNaturalRise x y nextY below newGrid rng = some res) :
    (res.2.2 = [] ∧ res.1 = newGrid) ∨
    ∃ g1, res.2.2 = [(x, nextY), (x, y)] ∧
      setCell newGrid x nextY air = some g1 ∧
      setCell g1 x y below = some res.1 := by
  unfold airNaturalRise at h
  split at h
  · rw [optBind_eq_some] at h
    obtain ⟨g1, hg1, h⟩ := h
    rw [optBind_eq_some] at h
    obtain ⟨g2, hg2, h⟩ := h
    simp only [Option.pure_def, Option.some_inj] at h
    right
    refine ⟨g1, ?_, hg1, ?_⟩
    · rw [← h]
    · rw [← h]; exact hg2
  · left
    simp only [Option.pure_def, Option.some_inj] at h
    rw [← h]
    exact ⟨rfl, rfl⟩

theorem pairNe {a b c d : ℤ} (h : a ≠ c ∨ b ≠ d) :
    ((a, b) : Coord) ≠ (c, d) := by
  intro heq
  rw [Prod.mk.injEq] at heq
  rcases h with h | h
  · exact h heq.1
  · exact h heq.2

theorem airAttractionStep_shape {W H : ℤ} {gridOld newGrid : Grid}
    {x y nextY : ℤ} {below : Cell} {rng : Rng}
    {res : Grid × Rng × List Coord} (hny : nextY ≠ y)
    (h : airAttractionStep W H gridOld x y nextY below newGrid rng
      = some res) :
    (res.2.2 = [] ∧ res.1 = newGrid) ∨
    ∃ dst v g1, dst ≠ ((x, y) : Coord) ∧ res.2.2 = [dst, (x, y)] ∧
      setCell newGrid dst.1 dst.2 air = some g1 ∧
      setCell g1 x y v = some res.1 ∧
      (getCell gridOld dst.1 dst.2 = some v ∨
        (dst = ((x, nextY) : Coord) ∧ v = below)) := by
  unfold airAttractionStep at h
  rw [optBind_eq_some] at h
  obtain ⟨p, hp, h⟩ := h
  obtain ⟨att, rng1⟩ := p
  dsimp only at h
  cases att with
  | some c =>
      obtain ⟨ax, ay⟩ := c
      dsimp only at h
      rw [optBind_eq_some] at h
      obtain ⟨target, htar, h⟩ := h
      split at h
      · rw [optBind_eq_some] at h
        obtain ⟨g1, hg1, h⟩ := h
        rw [optBind_eq_some] at h
        obtain ⟨g2, hg2, h⟩ := h
        simp only [Option.pure_def, Option.some_inj] at h
        right
        have hspec := applyAttraction_spec hp
        refine ⟨(ax, ay), target, g1, pairNe hspec.2.2.2.2, ?_, hg1, ?_, ?_⟩
        · rw [← h]
        · rw [← h]; exact hg2
        · exact Or.inl htar
      · rcases airNaturalRise_shape h with ⟨hlog, hg⟩ | ⟨g1, hlog, hg1, hg2⟩
        · exact Or.inl ⟨hlog, hg⟩
        · exact Or.inr ⟨(x, nextY), below, g1, pairNe (Or.inr hny), hlog,
            hg1, hg2, Or.inr ⟨rfl, rfl⟩⟩
  | none =>
      dsimp only at h
      rcases airNaturalRise_shape h with ⟨hlog, hg⟩ | ⟨g1, hlog, hg1, hg2⟩
      · exact Or.inl ⟨hlog, hg⟩
      · exact Or.inr ⟨(x, nextY), below, g1, pairNe (Or.inr hny), hlog,
          hg1, hg2, Or.inr ⟨rfl, rfl⟩⟩

theorem airSpreadStep_shape {W H : ℤ} {gridOld newGrid : Grid}
    {clusters : List Cluster} {x y nextY : ℤ} {below : Cell} {rng : Rng}
    {res : Grid × Rng × List Coord} (hny : nextY ≠ y)
    (h : airSpreadStep W H gridOld clusters x y nextY below newGrid rng
      = some res) :
    (res.2.2 = [] ∧ res.1 = newGrid) ∨
    ∃ dst v g1, dst ≠ ((x, y) : Coord) ∧ res.2.2 = [dst, (x, y)] ∧
      setCell newGrid dst.1 dst.2 air = some g1 ∧
      setCell g1 x y v = some res.1 ∧
      (getCell gridOld dst.1 dst.2 = some v ∨
        (dst = ((x, nextY) : Coord) ∧ v = below)) := by
  unfold airSpreadStep at h
  rw [optBind_eq_some] at h
  obtain ⟨p, hp, h⟩ := h
  obtain ⟨spr, rng1⟩ := p
  dsimp only at h
  cases spr with
  | some c =>
      obtain ⟨sx, sy⟩ := c
      dsimp only at h
      rw [optBind_eq_some] at h
      obtain ⟨target, htar, h⟩ := h
      split at h
      · rw [optBind_eq_some] at h
        obtain ⟨g1, hg1, h⟩ := h
        rw [optBind_eq_some] at h
        obtain ⟨g2, hg2, h⟩ := h
        simp only [Option.pure_def, Option.some_inj] at h
        right
        have hspec := applySpreadForce_spec hp
        refine ⟨(sx, sy), target, g1, pairNe (Or.inl hspec.2.2.2), ?_,
          hg1, ?_, ?_⟩
        · rw [← h]
        · rw [← h]; exact hg2
        · exact Or.inl htar
      · exact airAttractionStep_shape hny h
  | none =>
      dsimp only at h
      exact airAttractionStep_shape hny h

theorem sandRule_shape {W H : ℤ} {gridOld newGrid : Grid} {gravity x y : ℤ}
    {particle below : Cell} {props : Props} {rng : Rng}
    {res : Grid × Props × Rng × List Coord}
    (hgrav : gravity = 1 ∨ gravity = -1) (hy0 : 0 ≤ y) (hyH : y < H)
    (h : sandRule W H gridOld gravity x y particle below newGrid props rng
      = some res) :
    (res.2.2.2 = [] ∧ res.1 = newGrid) ∨
    ∃ dst v g1, dst ≠ ((x, y) : Coord) ∧ res.2.2.2 = [dst, (x, y)] ∧
      setCell newGrid dst.1 dst.2 particle = some g1 ∧
      setCell g1 x y v = some res.1 ∧
      getCell gridOld dst.1 dst.2 = some v := by
  unfold sandRule at h
  split at h
  · rw [optBind_eq_some] at h
    obtain ⟨p, hp, h⟩ := h
    obtain ⟨lat, rng1⟩ := p
    dsimp only at h
    cases lat with
    | some mv =>
        rw [optBind_eq_some] at h
        obtain ⟨g1, hg1, h⟩ := h
        rw [optBind_eq_some] at h
        obtain ⟨g2, hg2, h⟩ := h
        simp only [Option.pure_def, Option.some_inj] at h
        have hspec := tryLateralSlide_spec hp
        right
        refine ⟨(mv.x, mv.y), empty, g1,
          pairNe (Or.inl (by rcases hspec.2.2.1 with hq | hq <;> omega)),
          ?_, hg1, ?_, ?_⟩
        · rw [← h]
        · rw [← h]; exact hg2
        · show getCell gridOld mv.x mv.y = some empty
          rw [hspec.1]
          exact hspec.2.2.2.2.2
    | none =>
        simp only [Option.pure_def, Option.some_inj] at h
        left
        rw [← h]
        exact ⟨rfl, rfl⟩
  · split at h
    next hsb =>
      rw [optBind_eq_some] at h
      obtain ⟨p, hp, h⟩ := h
      obtain ⟨spreadRes, rngA⟩ := p
      dsimp only at h
      cases spreadRes with
      | some mv =>
          rw [optBind_eq_some] at h
          obtain ⟨g1, hg1, h⟩ := h
          rw [optBind_eq_some] at h
          obtain ⟨g2, hg2, h⟩ := h
          simp only [Option.pure_def, Option.some_inj] at h
          have hspec := tryLateralSlide_spec hp
          right
          refine ⟨(mv.x, mv.y), empty, g1,
            pairNe (Or.inl (by rcases hspec.2.2.1 with hq | hq <;> omega)),
            ?_, hg1, ?_, ?_⟩
          · rw [← h]
          · rw [← h]; exact hg2
          · show getCell gridOld mv.x mv.y = some empty
            rw [hspec.1]
            exact hspec.2.2.2.2.2
      | none =>
          rw [optBind_eq_some] at h
          obtain ⟨q, hq, h⟩ := h
          obtain ⟨mvO, rngB⟩ := q
          dsimp only at h
          cases mvO with
          | some mv =>
              rw [optBind_eq_some] at h
              obtain ⟨target, htar, h⟩ := h
              rw [optBind_eq_some] at h
              obtain ⟨g1, hg1, h⟩ := h
              rw [optBind_eq_some] at h
              obtain ⟨g2, hg2, h⟩ := h
              simp only [Option.pure_def, Option.some_inj] at h
              have hspec := findBestPath_spec hy0 hyH hq
              right
              refine ⟨(mv.x, mv.y), target, g1, ?_, ?_, hg1, ?_, ?_⟩
              · rcases hspec.2.2.1 with hq2 | hq2
                · exact pairNe (Or.inl hq2)
                · exact pairNe (Or.inr (by omega))
              · rw [← h]
              · rw [← h]; exact hg2
              · exact htar
          | none =>
              simp only [Option.pure_def, Option.some_inj] at h
              left
              rw [← h]
              exact ⟨rfl, rfl⟩
    next hnsb =>
      rw [optBind_pure] at h
      dsimp only at h
      rw [optBind_eq_some] at h
      obtain ⟨q, hq, h⟩ := h
      obtain ⟨mvO, rngB⟩ := q
      dsimp only at h
      cases mvO with
      | some mv =>
          rw [optBind_eq_some] at h
          obtain ⟨target, htar, h⟩ := h
          rw [optBind_eq_some] at h
          obtain ⟨g1, hg1, h⟩ := h
          rw [optBind_eq_some] at h
          obtain ⟨g2, hg2, h⟩ := h
          simp only [Option.pure_def, Option.some_inj] at h
          have hspec := findBestPath_spec hy0 hyH hq
          right
          refine ⟨(mv.x, mv.y), target, g1, ?_, ?_, hg1, ?_, ?_⟩
          · rcases hspec.2.2.1 with hq2 | hq2
            · exact pairNe (Or.inl hq2)
            · exact pairNe (Or.inr (by omega))
          · rw [← h]
          · rw [← h]; exact hg2
          · exact htar
      | none =>
          simp only [Option.pure_def, Option.some_inj] at h
          left
          rw [← h]
          exact ⟨rfl, rfl⟩

theorem airRule_shape {W H : ℤ} {gridOld newGrid : Grid} {gravity : ℤ}
    {clusters : List Cluster} {x y : ℤ} {particle below : Cell}
    {props : Props} {rng : Rng} {res : Grid × Props × Rng × List Coord}
    (hgrav : gravity = 1 ∨ gravity = -1) (hpa : particle = air)
    (hbelow : getCell gridOld x (y + gravity) = some below)
    (h : airRule W H gridOld gravity clusters x y particle below newGrid
      props rng = some res) :
    (res.2.2.2 = [] ∧ res.1 = newGrid) ∨
    ∃ dst v g1, dst ≠ ((x, y) : Coord) ∧ res.2.2.2 = [dst, (x, y)] ∧
      setCell newGrid dst.1 dst.2 particle = some g1 ∧
      setCell g1 x y v = some res.1 ∧
      getCell gridOld dst.1 dst.2 = some v := by
  have hny : y + gravity ≠ y := by rcases hgrav with hq | hq <;> omega
  unfold airRule at h
  rw [optBind_eq_some] at h
  obtain ⟨p, hp, h⟩ := h
  obtain ⟨buoy, rng1⟩ := p
  dsimp only at h
  cases buoy with
  | some c =>
      obtain ⟨bx, by2⟩ := c
      dsimp only at h
      rw [optBind_eq_some] at h
      obtain ⟨target, htar, h⟩ := h
      rw [optBind_eq_some] at h
      obtain ⟨g1, hg1, h⟩ := h
      rw [optBind_eq_some] at h
      obtain ⟨g2, hg2, h⟩ := h
      simp only [Option.pure_def, Option.some_inj] at h
      have hspec := applyBuoyancy_spec hp
      have hbx : bx = x ∧ by2 = y - gravity := by
        have hc := hspec.1
        rw [Prod.mk.injEq] at hc
        exact hc
      right
      refine ⟨(bx, by2), target, g1,
        pairNe (Or.inr (by rcases hgrav with hq | hq <;> omega)),
        ?_, hg1, ?_, ?_⟩
      · rw [← h]
      · rw [← h]; exact hg2
      · exact htar
  | none =>
      rw [optBind_eq_some] at h
      obtain ⟨t, ht, h⟩ := h
      obtain ⟨g2, rng2, log⟩ := t
      dsimp only at h
      simp only [Option.pure_def, Option.some_inj] at h
      have hsh := airSpreadStep_shape hny ht
      dsimp only at hsh
      rcases hsh with ⟨hlog, hg⟩ | ⟨dst, v, g1, hne, hlog, hset1, hset2, hval⟩
      · left
        rw [← h]
        exact ⟨hlog, hg⟩
      · right
        refine ⟨dst, v, g1, hne, ?_, ?_, ?_, ?_⟩
        · rw [← h]; exact hlog
        · rw [hpa]; exact hset1
        · rw [← h]; exact hset2
        · rcases hval with hv | ⟨hd, hv⟩
          · exact hv
          · rw [hd]
            dsimp only
            rw [hv]
            exact hbelow

theorem waterRule_spread_wrap {W H : ℤ} {gridOld newGrid : Grid} {x y : ℤ}
    {particle : Cell} {props : Props} {rng : Rng}
    {res : Grid × Props × Rng × List Coord} (hpw : particle = water)
    (h : (do
      let (g2, rng3, log) ← waterSpreadStep W H gridOld x y newGrid rng
      pure (g2, props, rng3, log)) = some res) :
    (res.2.2.2 = [] ∧ res.1 = newGrid) ∨
    ∃ dst v g1, dst ≠ ((x, y) : Coord) ∧ res.2.2.2 = [dst, (x, y)] ∧
      setCell newGrid dst.1 dst.2 particle = some g1 ∧
      setCell g1 x y v = some res.1 ∧
      getCell gridOld dst.1 dst.2 = some v := by
  rw [optBind_eq_some] at h
  obtain ⟨t, ht, h⟩ := h
  obtain ⟨g2, rng3, log⟩ := t
  dsimp only at h
  simp only [Option.pure_def, Option.some_inj] at h
  have hsh := waterSpreadStep_shape ht
  dsimp only at hsh
  rcases hsh with ⟨hlog, hg⟩ | ⟨sx, g1, hsx, hside, hlog, hset1, hset2⟩
  · left
    rw [← h]
    exact ⟨hlog, hg⟩
  · right
    refine ⟨(sx, y), empty, g1, pairNe (Or.inl hsx), ?_, ?_, ?_, ?_⟩
    · rw [← h]; exact hlog
    · rw [hpw]; exact hset1
    · rw [← h]; exact hset2
    · exact hside

theorem waterRule_spread_wrap2 {W H : ℤ} {gridOld newGrid : Grid}
    {gravity x y : ℤ} {particle : Cell} {props : Props} {rng : Rng}
    {res : Grid × Props × Rng × List Coord} (hpw : particle = water)
    (h : (do
      let (g2, rng3, log) ← waterSpreadStep W H gridOld x y newGrid rng
      pure (g2, props, rng3, log)) = some res) :
    (res.2.2.2 = [] ∧ res.1 = newGrid) ∨
    ∃ dst v g1, dst ≠ ((x, y) : Coord) ∧ res.2.2.2 = [dst, (x, y)] ∧
      setCell newGrid dst.1 dst.2 particle = some g1 ∧
      setCell g1 x y v = some res.1 ∧
      (getCell gridOld dst.1 dst.2 = some v ∨
        (v = empty ∧ dst.2 = y + gravity ∧ dst.1 ≠ x)) := by
  rcases waterRule_spread_wrap hpw h with hl | ⟨dst, v, g1, a, b, c, d, e⟩
  · exact Or.inl hl
  · exact Or.inr ⟨dst, v, g1, a, b, c, d, Or.inl e⟩

theorem waterRule_shape {W H : ℤ} {gridOld newGrid : Grid} {gravity x y : ℤ}
    {particle below : Cell} {props : Props} {rng : Rng}
    {res : Grid × Props × Rng × List Coord}
    (hgrav : gravity = 1 ∨ gravity = -1) (hpw : particle = water)
    (hbelow : getCell gridOld x (y + gravity) = some below)
    (h : waterRule W H gridOld gravity x y particle below newGrid props rng
      = some res) :
    (res.2.2.2 = [] ∧ res.1 = newGrid) ∨
    ∃ dst v g1, dst ≠ ((x, y) : Coord) ∧ res.2.2.2 = [dst, (x, y)] ∧
      setCell newGrid dst.1 dst.2 particle = some g1 ∧
      setCell g1 x y v = some res.1 ∧
      (getCell gridOld dst.1 dst.2 = some v ∨
        (v = empty ∧ dst.2 = y + gravity ∧ dst.1 ≠ x)) := by
  have hny : y + gravity ≠ y := by rcases hgrav with hq | hq <;> omega
  unfold waterRule at h
  split at h
  · split at h
    · rw [optBind_eq_some] at h
      obtain ⟨g1, hg1, h⟩ := h
      rw [optBind_eq_some] at h
      obtain ⟨g2, hg2, h⟩ := h
      simp only [Option.pure_def, Option.some_inj] at h
      right
      refine ⟨(x, y + gravity), below, g1, pairNe (Or.inr hny),
        ?_, hg1, ?_, ?_⟩
      · rw [← h]
      · rw [← h]; exact hg2
      · exact Or.inl hbelow
    · rcases hd1 : draw rng with ⟨r1, rng1⟩
      rw [hd1] at h
      dsimp only at h
      split at h
      · rcases hd2 : draw rng1 with ⟨r2, rng2⟩
        rw [hd2] at h
        dsimp only at h
        split at h
        · rw [optBind_eq_some] at h
          obtain ⟨diag, hdiag, h⟩ := h
          split at h
          · rw [optBind_eq_some] at h
            obtain ⟨g1, hg1, h⟩ := h
            rw [optBind_eq_some] at h
            obtain ⟨g2, hg2, h⟩ := h
            simp only [Option.pure_def, Option.some_inj] at h
            right
            refine ⟨(x + dirOf r2, y + gravity), empty, g1,
              pairNe (Or.inl (by rcases dirOf_pm r2 with hq | hq <;> omega)),
              ?_, hg1, ?_, ?_⟩
            · rw [← h]
            · rw [← h]; exact hg2
            · exact Or.inr ⟨rfl, rfl,
                by dsimp only; rcases dirOf_pm r2 with hq | hq <;> omega⟩
          · exact waterRule_spread_wrap2 hpw h
        · exact waterRule_spread_wrap2 hpw h
      · exact waterRule_spread_wrap2 hpw h
  · exact waterRule_spread_wrap2 hpw h

/-- Master shape of one `updateParticle` invocation: either nothing is
written, or exactly two cells are written — a destination distinct from
the source, receiving the moving particle, and then the source `(x, y)`,
receiving a value read from the old grid at the destination except in
the water diagonal move, where the source is cleared to Empty. -/
theorem updateParticle_write_shape {W H : ℤ} {gridOld newGrid : Grid}
    {gravity : ℤ} {clusters : List Cluster} {x y : ℤ} {props : Props}
    {rng : Rng} {res : Grid × Props × Rng × List Coord}
    (hgrav : gravity = 1 ∨ gravity = -1) (hy0 : 0 ≤ y) (hyH : y < H)
    (h : updateParticle W H gridOld gravity clusters x y newGrid props rng
      = some res) :
    (res.2.2.2 = [] ∧ res.1 = newGrid) ∨
    ∃ particle dst v g1, getCell gridOld x y = some particle ∧
      dst ≠ ((x, y) : Coord) ∧ res.2.2.2 = [dst, (x, y)] ∧
      setCell newGrid dst.1 dst.2 particle = some g1 ∧
      setCell g1 x y v = some res.1 ∧
      (getCell gridOld dst.1 dst.2 = some v ∨
        (particle = water ∧ v = empty ∧ dst.2 = y + gravity ∧ dst.1 ≠ x)) := by
  unfold updateParticle at h
  rw [optBind_eq_some] at h
  obtain ⟨particle, hpart, h⟩ := h
  split at h
  · simp only [Option.pure_def, Option.some_inj] at h
    left
    rw [← h]
    exact ⟨rfl, rfl⟩
  · split at h
    · simp only [Option.pure_def, Option.some_inj] at h
      left
      rw [← h]
      exact ⟨rfl, rfl⟩
    · rw [optBind_eq_some] at h
      obtain ⟨below, hbelow, h⟩ := h
      split at h
      · rcases sandRule_shape hgrav hy0 hyH h with hl |
          ⟨dst, v, g1, hne, hlog, hs1, hs2, hv⟩
        · exact Or.inl hl
        · exact Or.inr ⟨particle, dst, v, g1, hpart, hne, hlog, hs1, hs2,
            Or.inl hv⟩
      · split at h
        next hpa =>
          rcases airRule_shape hgrav hpa hbelow h with hl |
            ⟨dst, v, g1, hne, hlog, hs1, hs2, hv⟩
          · exact Or.inl hl
          · exact Or.inr ⟨particle, dst, v, g1, hpart, hne, hlog, hs1, hs2,
              Or.inl hv⟩
        next =>
          split at h
          next hpw =>
            rcases waterRule_shape hgrav hpw hbelow h with hl |
              ⟨dst, v, g1, hne, hlog, hs1, hs2, hv⟩
            · exact Or.inl hl
            · refine Or.inr ⟨particle, dst, v, g1, hpart, hne, hlog, hs1,
                hs2, ?_⟩
              rcases hv with hv | ⟨hv1, hv2, hv3⟩
              · exact Or.inl hv
              · exact Or.inr ⟨hpw, hv1, hv2, hv3⟩
          next =>
            simp only [Option.pure_def, Option.some_inj] at h
            left
            rw [← h]
            exact ⟨rfl, rfl⟩

/-- Claim C3, counterexample: in a single tick of a 3×2 grid
`[[Water, Empty, Water], [SandHeavy, SandHeavy, SandHeavy]]` with
gravity `+1` and random stream `3/5, 3/5, 3/5, 2/5`, both water cells
horizontally spread into the same Empty cell `(1, 0)`: two distinct
rule invocations (sources `(0, 0)` and `(2, 0)`) write the same
output-grid cell in the same tick, so destinations are not protected. -/
theorem same_cell_written_by_two_invocations :
    (update 3 2 [[water, empty, water], [sandHeavy, sandHeavy, sandHeavy]]
        1 (fun _ => none) [⟨3, 5⟩, ⟨3, 5⟩, ⟨3, 5⟩, ⟨2, 5⟩]).map
      (fun st => st.2.2.2) =
    some [((0, 1), []), ((1, 1), []), ((2, 1), []),
      ((0, 0), [(1, 0), (0, 0)]), ((1, 0), []),
      ((2, 0), [(1, 0), (2, 0)])] ∧
    (((1, 0) : Coord) ∈ [((1, 0) : Coord), (0, 0)] ∧
     ((1, 0) : Coord) ∈ [((1, 0) : Coord), (2, 0)]) ∧
    (((0, 0) : Coord) ≠ ((2, 0) : Coord)) := by
  exact ⟨by decide, ⟨by decide, by decide⟩, by decide⟩

/-- Claim C3, amended: what the driver does guarantee per invocation is
that each rule invocation writes either nothing or exactly two cells —
one destination distinct from its own source, then its own source.
Since the driver iterates distinct source cells, no SOURCE cell is
written as a source by two invocations; but destination cells are not
protected (see the counterexample), so "no cell is written by more than
one rule invocation" fails while the per-invocation write discipline
holds. -/
theorem invocation_log_nil_or_pair {W H : ℤ} {gridOld newGrid : Grid}
    {gravity : ℤ} {clusters : List Cluster} {x y : ℤ} {props : Props}
    {rng : Rng} {res : Grid × Props × Rng × List Coord}
    (hgrav : gravity = 1 ∨ gravity = -1) (hy0 : 0 ≤ y) (hyH : y < H)
    (h : updateParticle W H gridOld gravity clusters x y newGrid props rng
      = some res) :
    res.2.2.2 = [] ∨
    ∃ dst, dst ≠ ((x, y) : Coord) ∧ res.2.2.2 = [dst, (x, y)] := by
  rcases updateParticle_write_shape hgrav hy0 hyH h with ⟨hnil, -⟩ |
    ⟨particle, dst, v, g1, -, hne, hlog, -, -, -⟩
  · exact Or.inl hnil
  · exact Or.inr ⟨dst, hne, hlog⟩

theorem invocation_log_nil_or_pair_witness :
    ([(((0 : ℤ), (1 : ℤ)) : Coord), ((0, 0) : Coord)] = ([] : List Coord)) ∨
    ∃ dst, dst ≠ (((0 : ℤ), (0 : ℤ)) : Coord) ∧
      [(((0 : ℤ), (1 : ℤ)) : Coord), ((0, 0) : Coord)] = [dst, (0, 0)] :=
  @invocation_log_nil_or_pair 2 2 [[water, empty], [empty, empty]]
    [[water, empty], [empty, empty]] 1 [] 0 0 (fun _ => none) [] _
    (Or.inl rfl) (by decide) (by decide) rfl

/-- Claim C1, counterexample: type conservation fails.  In a 2×2 grid
`[[SandHeavy, Air], [Water, Empty]]` with gravity `-1` and random
stream `4/5, 3/5`, the water cell's diagonal move (lines 793–800)
writes Water over the Air cell and clears its own source to Empty:
the tick destroys the grid's only Air cell (count 1 before, 0 after),
so the multiset of cell types is not preserved. -/
theorem water_diagonal_destroys_air :
    (update 2 2 [[sandHeavy, air], [water, empty]] (-1) (fun _ => none)
        [⟨4, 5⟩, ⟨3, 5⟩]).map
      (fun st => Multiset.count air (gridMultiset st.1)) = some 0 ∧
    Multiset.count air
      (gridMultiset [[sandHeavy, air], [water, empty]]) = 1 := by
  exact ⟨by decide, by decide⟩

/-- Claim C1, amended: every two-cell write of a rule invocation is a
true swap of the two cells' old values — the destination receives the
moving particle and the source receives the destination's old value, so
the pair's combined multiset of types is preserved — EXCEPT the water
diagonal move (destination on the row `y + gravity` with a different
column), which clears the source to Empty regardless of the
destination's old value and thereby can destroy a cell type (see the
counterexample). -/
theorem invocation_pair_is_swap_unless_water_diagonal {W H : ℤ}
    {gridOld newGrid : Grid} {gravity : ℤ} {clusters : List Cluster}
    {x y : ℤ} {props : Props} {rng : Rng}
    {res : Grid × Props × Rng × List Coord} {dst src : Coord}
    (hgrav : gravity = 1 ∨ gravity = -1) (hy0 : 0 ≤ y) (hyH : y < H)
    (h : updateParticle W H gridOld gravity clusters x y newGrid props rng
      = some res)
    (hlog : res.2.2.2 = [dst, src])
    (hnd : ¬(getCell gridOld x y = some water ∧ dst.2 = y + gravity ∧
      dst.1 ≠ x)) :
    src = (x, y) ∧
    ∃ a b, getCell res.1 dst.1 dst.2 = some a ∧
      getCell res.1 x y = some b ∧
      getCell gridOld dst.1 dst.2 = some b ∧
      getCell gridOld x y = some a := by
  rcases updateParticle_write_shape hgrav hy0 hyH h with ⟨hnil, -⟩ |
    ⟨particle, dst2, v, g1, hpart, hne, hlog2, hs1, hs2, hval⟩
  · rw [hlog] at hnil
    simp at hnil
  · rw [hlog] at hlog2
    have hds : dst = dst2 ∧ src = (x, y) := by
      rw [List.cons.injEq, List.cons.injEq] at hlog2
      exact ⟨hlog2.1, hlog2.2.1⟩
    obtain ⟨hdd, hsrc⟩ := hds
    subst hdd
    rcases hval with hv | ⟨hpw, hv, hd2, hd1⟩
    · refine ⟨hsrc, particle, v, ?_, ?_, hv, hpart⟩
      · have hne2 : ((dst.1, dst.2) : Coord) ≠ (x, y) := by
          rw [Prod.mk.eta]
          exact hne
        rw [getCell_setCell_ne hs2 hne2]
        exact getCell_setCell_same hs1
      · exact getCell_setCell_same hs2
    · rw [hpw] at hpart
      exact absurd ⟨hpart, hd2, hd1⟩ hnd

theorem invocation_pair_is_swap_unless_water_diagonal_witness :
    (((0 : ℤ), (0 : ℤ)) : Coord) = ((0 : ℤ), (0 : ℤ)) ∧
    ∃ a b, getCell [[empty], [water]] 0 1 = some a ∧
      getCell [[empty], [water]] 0 0 = some b ∧
      getCell [[water], [empty]] 0 1 = some b ∧
      getCell [[water], [empty]] 0 0 = some a :=
  @invocation_pair_is_swap_unless_water_diagonal 1 2 [[water], [empty]]
    [[water], [empty]] 1 [] 0 0 (fun _ => none) [] _ ((0, 1) : Coord)
    ((0, 0) : Coord) (Or.inl rfl) (by decide) (by decide) rfl rfl (by decide)

/-! ## Characterisation of the gap scan (`findGapInBarrier`) -/

theorem checkPath_clear {g : Grid} {cx : ℤ} :
    ∀ (rows : List ℤ) (q0 : ℕ),
    (∀ r ∈ rows, ∀ c, getCell g cx r = some c →
      c ≠ air ∧ isSand c = false) →
    (∀ r ∈ rows, ∃ c, getCell g cx r = some c) →
    checkPath g cx rows q0 =
      some (q0 + rows.countP (fun r => decide (getCell g cx r = some empty)),
        true) := by
  intro rows
  induction rows with
  | nil => intro q0 _ _; simp [checkPath]
  | cons r rs ih =>
      intro q0 hclear hread
      obtain ⟨c, hc⟩ := hread r (by simp)
      rw [checkPath, hc, optBind_some]
      obtain ⟨hcair, hcsand⟩ := hclear r (by simp) c hc
      by_cases hce : c = empty
      · rw [if_pos hce]
        rw [ih (q0 + 1) (fun r2 h2 => hclear r2 (by simp [h2]))
          (fun r2 h2 => hread r2 (by simp [h2]))]
        have hcount : (r :: rs).countP
            (fun r2 => decide (getCell g cx r2 = some empty)) =
            rs.countP (fun r2 => decide (getCell g cx r2 = some empty)) + 1 := by
          rw [List.countP_cons]
          simp [hc, hce]
        have harith : q0 + 1 + rs.countP
            (fun r2 => decide (getCell g cx r2 = some empty)) =
            q0 + (rs.countP
              (fun r2 => decide (getCell g cx r2 = some empty)) + 1) := by
          omega
        rw [hcount, harith]
      · rw [if_neg hce, if_neg (by simp [hcair]), if_neg (by simp [hcsand])]
        rw [ih q0 (fun r2 h2 => hclear r2 (by simp [h2]))
          (fun r2 h2 => hread r2 (by simp [h2]))]
        have hcount : (r :: rs).countP
            (fun r2 => decide (getCell g cx r2 = some empty)) =
            rs.countP (fun r2 => decide (getCell g cx r2 = some empty)) := by
          rw [List.countP_cons]
          simp only [hc, Option.some_inj]
          simp [hce]
        rw [hcount]

theorem checkPath_true_inv {g : Grid} {cx : ℤ} :
    ∀ (rows : List ℤ) (q0 q : ℕ),
    checkPath g cx rows q0 = some (q, true) →
    (∀ r ∈ rows, ∀ c, getCell g cx r = some c →
      c ≠ air ∧ isSand c = false) ∧
    q = q0 + rows.countP (fun r => decide (getCell g cx r = some empty)) := by
  intro rows
  induction rows with
  | nil =>
      intro q0 q h
      simp only [checkPath, Option.some_inj, Prod.mk.injEq] at h
      refine ⟨by simp, ?_⟩
      simp [h.1.symm]
  | cons r rs ih =>
      intro q0 q h
      rw [checkPath, optBind_eq_some] at h
      obtain ⟨c, hc, h⟩ := h
      split at h
      next hce =>
        obtain ⟨hclear, hq⟩ := ih (q0 + 1) q h
        refine ⟨?_, ?_⟩
        · intro r2 h2 c2 hc2
          rcases List.mem_cons.mp h2 with rfl | h2
          · rw [hc] at hc2
            injection hc2 with hc2
            rw [← hc2, hce]
            exact ⟨(by intro hx; cases hx), rfl⟩
          · exact hclear r2 h2 c2 hc2
        · have hq2 : (r :: rs).countP
              (fun r2 => decide (getCell g cx r2 = some empty)) =
              rs.countP (fun r2 => decide (getCell g cx r2 = some empty))
                + 1 := by
            rw [List.countP_cons]
            simp [hc, hce]
          rw [hq2]
          omega
      next hce =>
        split at h
        next hca => simp at h
        next hca =>
          split at h
          next hcs => simp at h
          next hcs =>
            obtain ⟨hclear, hq⟩ := ih q0 q h
            refine ⟨?_, ?_⟩
            · intro r2 h2 c2 hc2
              rcases List.mem_cons.mp h2 with rfl | h2
              · rw [hc] at hc2
                injection hc2 with hc2
                rw [← hc2]
                exact ⟨hca, by simpa using hcs⟩
              · exact hclear r2 h2 c2 hc2
            · have hq2 : (r :: rs).countP
                  (fun r2 => decide (getCell g cx r2 = some empty)) =
                  rs.countP
                    (fun r2 => decide (getCell g cx r2 = some empty)) := by
                rw [List.countP_cons]
                simp [hc, hce]
              rw [hq2]
              exact hq

theorem gapWindow_bounds {H y r : ℤ} (hy0 : 0 ≤ y) (hr : r ∈ gapWindow H y) :
    0 ≤ r ∧ r < H := by
  have := mem_intRange.mp hr
  omega

theorem gapCandidate_valid {W H : ℤ} {g : Grid} {x y dx : ℤ}
    (hwf : wfGrid W H g) (hy0 : 0 ≤ y)
    (hin0 : 0 ≤ x + dx) (hinW : x + dx < W)
    (hclear : colClear g (x + dx) H y)
    (hpos : 0 < colEmpties g (x + dx) H y) :
    gapCandidate W H g x y dx =
      some (some ⟨x + dx, colEmpties g (x + dx) H y, dx.natAbs⟩) := by
  unfold gapCandidate
  rw [if_pos ⟨hin0, hinW⟩]
  have hread : ∀ r ∈ gapWindow H y, ∃ c, getCell g (x + dx) r = some c := by
    intro r hr
    obtain ⟨hr0, hrH⟩ := gapWindow_bounds hy0 hr
    exact getCell_isSome hwf (x + dx) r hin0 hinW hr0 hrH
  have hcp := checkPath_clear (gapWindow H y) 0
    (fun r hr => hclear r hr) hread
  rw [show intRange (y + 1) (min (y + 3) (H - 1)) = gapWindow H y from rfl,
    hcp, optBind_some]
  dsimp only
  rw [if_pos ⟨rfl, by simpa [colEmpties] using hpos⟩]
  simp [colEmpties]

theorem gapCandidate_inv {W H : ℤ} {g : Grid} {x y dx : ℤ} {gc : GapCand}
    (h : gapCandidate W H g x y dx = some (some gc)) :
    0 ≤ x + dx ∧ x + dx < W ∧ colClear g (x + dx) H y ∧
    0 < colEmpties g (x + dx) H y ∧
    gc = ⟨x + dx, colEmpties g (x + dx) H y, dx.natAbs⟩ := by
  unfold gapCandidate at h
  split at h
  next hin =>
    rw [optBind_eq_some] at h
    obtain ⟨⟨q, ok⟩, hcp, h⟩ := h
    dsimp only at h
    split at h
    next hok =>
      simp only [Option.pure_def, Option.some_inj] at h
      cases ok with
      | false => exact absurd hok.1 (by simp)
      | true =>
          obtain ⟨hclear, hq⟩ := checkPath_true_inv _ 0 q hcp
          have hqe : q = colEmpties g (x + dx) H y := by
            rw [hq]
            simp [colEmpties, gapWindow]
          exact ⟨hin.1, hin.2, hclear, by rw [← hqe]; exact hok.2,
            by rw [← h, hqe]⟩
    next hok => simp at h
  · simp at h

theorem gapLe_refl (a : GapCand) : gapLe a a = true := by
  simp [gapLe]

theorem gapLe_total (a b : GapCand) : gapLe a b = true ∨ gapLe b a = true := by
  simp only [gapLe, decide_eq_true_eq]
  omega

theorem gapLe_trans {a b c : GapCand} (h1 : gapLe a b = true)
    (h2 : gapLe b c = true) : gapLe a c = true := by
  simp only [gapLe, decide_eq_true_eq] at h1 h2 ⊢
  omega

theorem gapSort_head_min :
    ∀ (l : List GapCand) (b : GapCand) (t : List GapCand),
    gapSort l = b :: t → ∀ a ∈ l, gapLe b a = true := by
  intro l
  induction l with
  | nil => intro b t h; simp [gapSort] at h
  | cons a as ih =>
      intro b t h a2 ha2
      rw [gapSort] at h
      rcases hs : gapSort as with _ | ⟨b0, t0⟩
      · rw [hs, gapInsert] at h
        injection h with h1 h2
        subst h1
        rcases List.mem_cons.mp ha2 with rfl | h2
        · exact gapLe_refl a2
        · exact absurd (mem_gapSort.mpr h2) (by rw [hs]; simp)
      · rw [hs, gapInsert] at h
        split at h
        next hle =>
          injection h with h1 h2
          rw [← h1]
          rcases List.mem_cons.mp ha2 with rfl | h2
          · exact hle
          · exact ih b0 t0 hs a2 h2
        next hle =>
          injection h with h1 h2
          rw [← h1]
          rcases List.mem_cons.mp ha2 with rfl | h2
          · exact gapLe_refl a2
          · have hb0 : gapLe a b0 = true := by
              rcases gapLe_total b0 a with hq | hq
              · exact absurd hq (by simpa using hle)
              · exact hq
            exact gapLe_trans hb0 (ih b0 t0 hs a2 h2)

theorem foldGaps_mem_fwd {W H : ℤ} {g : Grid} {x y : ℤ} :
    ∀ (l : List ℤ) (acc res : List GapCand),
    l.foldlM (gapStep W H g x y) acc = some res →
    (∀ gc ∈ acc, gc ∈ res) ∧
    (∀ dx ∈ l, ∀ gc, gapCandidate W H g x y dx = some (some gc) →
      gc ∈ res) := by
  intro l
  induction l with
  | nil =>
      intro acc res h
      simp only [List.foldlM_nil, Option.pure_def, Option.some_inj] at h
      exact ⟨fun gc hgc => h ▸ hgc, by simp⟩
  | cons dx rest ih =>
      intro acc res h
      rw [List.foldlM_cons, optBind_eq_some] at h
      obtain ⟨acc2, hstep, hfold⟩ := h
      unfold gapStep at hstep
      rw [optBind_eq_some] at hstep
      obtain ⟨c, hcand, hpure⟩ := hstep
      simp only [Option.pure_def, Option.some_inj] at hpure
      subst hpure
      obtain ⟨hacc, hrest⟩ := ih _ res hfold
      refine ⟨fun gc hgc => hacc gc (by simp [hgc]), ?_⟩
      intro dx2 hdx2 gc hgc
      rcases List.mem_cons.mp hdx2 with rfl | hdx2
      · rw [hcand] at hgc
        injection hgc with hgc
        subst hgc
        exact hacc gc (by simp)
      · exact hrest dx2 hdx2 gc hgc

/-- Claim C7, counterexample: the gap search's notion of a valid
candidate column is NOT "a clear (Empty) path": Water cells in the
path neither block nor count.  In the first 4×4 grid the search from
`(2, 0)` returns the gap move into column 3 even though the path cell
`(3, 1)` holds Water.  In the second 5×4 grid, columns 3 and 4 hold the
same TOTAL of 2 Empty path cells, but column 3's empties are separated
by Water (`(3, 2)`) while column 4's two empties are contiguous; the
code still picks column 3 (total-count tie broken by distance), whereas
picking "the most contiguous empty cells" would select column 4. -/
theorem gap_with_water_in_path :
    (findGapInBarrier 4 4
      [[empty, empty, sandHeavy, empty],
       [sandHeavy, sandHeavy, empty, water],
       [empty, empty, empty, empty],
       [empty, empty, empty, empty]] 2 0 1
      = some (some ⟨3, 1, MoveType.gap⟩) ∧
    getCell
      [[empty, empty, sandHeavy, empty],
       [sandHeavy, sandHeavy, empty, water],
       [empty, empty, empty, empty],
       [empty, empty, empty, empty]] 3 1 = some water) ∧
    (findGapInBarrier 5 4
      [[empty, empty, empty, empty, empty],
       [sandHeavy, sandHeavy, empty, empty, empty],
       [empty, empty, empty, water, empty],
       [empty, empty, empty, empty, water]] 2 0 1
      = some (some ⟨3, 1, MoveType.gap⟩) ∧
    getCell
      [[empty, empty, empty, empty, empty],
       [sandHeavy, sandHeavy, empty, empty, empty],
       [empty, empty, empty, water, empty],
       [empty, empty, empty, empty, water]] 3 2 = some water ∧
    getCell
      [[empty, empty, empty, empty, empty],
       [sandHeavy, sandHeavy, empty, empty, empty],
       [empty, empty, empty, water, empty],
       [empty, empty, empty, empty, water]] 4 1 = some empty ∧
    getCell
      [[empty, empty, empty, empty, empty],
       [sandHeavy, sandHeavy, empty, empty, empty],
       [empty, empty, empty, water, empty],
       [empty, empty, empty, empty, water]] 4 2 = some empty) := by
  exact ⟨⟨by decide, by decide⟩, by decide, by decide, by decide⟩

/-- Claim C7, amended: the gap search scans the columns at horizontal
offsets −3…3 (skipping 0); a column is a valid candidate iff its window
of rows `y+1 … min(y+3, H−1)` contains no Air and no Sand (Water cells
are stepped over without blocking) and holds at least one Empty cell;
the returned column maximises the TOTAL number of Empty cells in the
window (not the contiguous run), ties broken by smaller horizontal
distance. -/
theorem gap_search_characterization {W H : ℤ} {g : Grid} {x y t : ℤ}
    {mv : Move} (hwf : wfGrid W H g) (hy0 : 0 ≤ y)
    (h : findGapInBarrier W H g x y t = some (some mv)) :
    ∃ dx ∈ ([-3, -2, -1, 1, 2, 3] : List ℤ),
      mv = ⟨x + dx, t, MoveType.gap⟩ ∧ 0 ≤ x + dx ∧ x + dx < W ∧
      colClear g (x + dx) H y ∧ 0 < colEmpties g (x + dx) H y ∧
      ∀ dx2 ∈ ([-3, -2, -1, 1, 2, 3] : List ℤ),
        0 ≤ x + dx2 → x + dx2 < W → colClear g (x + dx2) H y →
        0 < colEmpties g (x + dx2) H y →
        (colEmpties g (x + dx2) H y < colEmpties g (x + dx) H y ∨
         (colEmpties g (x + dx2) H y = colEmpties g (x + dx) H y ∧
           dx.natAbs ≤ dx2.natAbs)) := by
  unfold findGapInBarrier at h
  rw [optBind_eq_some] at h
  obtain ⟨gaps, hfold, h⟩ := h
  match hsort : gapSort gaps with
  | [] => rw [hsort] at h; simp at h
  | best :: rest =>
      rw [hsort] at h
      simp only [Option.pure_def, Option.some_inj] at h
      have hbestmem : best ∈ gaps :=
        mem_gapSort.mp (by rw [hsort]; simp)
      rcases foldGaps_mem _ _ _ hfold best hbestmem with hin |
        ⟨dx, hdx, hcand⟩
      · simp at hin
      · obtain ⟨hin0, hinW, hclear, hpos, hbest⟩ := gapCandidate_inv hcand
        refine ⟨dx, hdx, ?_, hin0, hinW, hclear, hpos, ?_⟩
        · rw [← h, hbest]
        · intro dx2 hdx2 h20 h2W h2clear h2pos
          have hcand2 := gapCandidate_valid hwf hy0 h20 h2W h2clear h2pos
          have hmem2 : (⟨x + dx2, colEmpties g (x + dx2) H y, dx2.natAbs⟩ :
              GapCand) ∈ gaps :=
            (foldGaps_mem_fwd _ _ _ hfold).2 dx2 hdx2 _ hcand2
          have hle := gapSort_head_min gaps best rest hsort _ hmem2
          rw [hbest] at hle
          simp only [gapLe, decide_eq_true_eq] at hle
          rcases hle with hq | ⟨hq, hd⟩
          · exact Or.inl hq
          · exact Or.inr ⟨hq.symm, hd⟩

theorem gap_search_characterization_witness :
    ∃ dx ∈ ([-3, -2, -1, 1, 2, 3] : List ℤ),
      (⟨3, 1, MoveType.gap⟩ : Move) = ⟨2 + dx, 1, MoveType.gap⟩ ∧
      colClear
        [[empty, empty, sandHeavy, empty],
         [sandHeavy, sandHeavy, empty, water],
         [empty, empty, empty, empty],
         [empty, empty, empty, empty]] (2 + dx) 4 0 ∧
      0 < colEmpties
        [[empty, empty, sandHeavy, empty],
         [sandHeavy, sandHeavy, empty, water],
         [empty, empty, empty, empty],
         [empty, empty, empty, empty]] (2 + dx) 4 0 := by
  obtain ⟨dx, hdx, h1, h2, h3, h4, h5, h6⟩ :=
    @gap_search_characterization 4 4
      [[empty, empty, sandHeavy, empty],
       [sandHeavy, sandHeavy, empty, water],
       [empty, empty, empty, empty],
       [empty, empty, empty, empty]] 2 0 1 ⟨3, 1, MoveType.gap⟩
      (by decide) (by decide) (by decide)
  exact ⟨dx, hdx, h1, h4, h5⟩

/-! ## The gap scan reads only the rows `y+1 … y+3` -/

theorem checkPath_congr {g g' : Grid} {cx : ℤ} :
    ∀ (rows : List ℤ) (q : ℕ),
    (∀ r ∈ rows, getCell g cx r = getCell g' cx r) →
    checkPath g cx rows q = checkPath g' cx rows q := by
  intro rows
  induction rows with
  | nil => intro q _; rfl
  | cons r rs ih =>
      intro q hagree
      rw [checkPath, checkPath, ← hagree r (by simp)]
      cases hc : getCell g cx r with
      | none => rfl
      | some c =>
          rw [optBind_some, optBind_some]
          have hrest : ∀ r2 ∈ rs, getCell g cx r2 = getCell g' cx r2 :=
            fun r2 h2 => hagree r2 (by simp [h2])
          by_cases he : c = empty
          · rw [if_pos he, if_pos he]
            exact ih (q + 1) hrest
          · rw [if_neg he, if_neg he]
            by_cases ha : c = air
            · rw [if_pos ha, if_pos ha]
            · rw [if_neg ha, if_neg ha]
              by_cases hs2 : isSand c = true
              · rw [if_pos hs2, if_pos hs2]
              · rw [if_neg hs2, if_neg hs2]
                exact ih q hrest

theorem gapCandidate_congr {W H : ℤ} {g g' : Grid} {x y : ℤ} (dx : ℤ)
    (hagree : ∀ cx r, r ∈ gapWindow H y → getCell g cx r = getCell g' cx r) :
    gapCandidate W H g x y dx = gapCandidate W H g' x y dx := by
  unfold gapCandidate
  split
  · rw [checkPath_congr (intRange (y + 1) (min (y + 3) (H - 1))) 0
      (fun r hr => hagree (x + dx) r hr)]
  · rfl

theorem gapFold_congr {W H : ℤ} {g g' : Grid} {x y : ℤ}
    (hagree : ∀ cx r, r ∈ gapWindow H y → getCell g cx r = getCell g' cx r) :
    ∀ (l : List ℤ) (acc : List GapCand),
    l.foldlM (gapStep W H g x y) acc = l.foldlM (gapStep W H g' x y) acc := by
  intro l
  induction l with
  | nil => intro acc; rfl
  | cons dx rest ih =>
      intro acc
      rw [List.foldlM_cons, List.foldlM_cons]
      unfold gapStep
      rw [gapCandidate_congr dx hagree]
      cases gapCandidate W H g' x y dx with
      | none => rfl
      | some c =>
          rw [optBind_some, optBind_pure, optBind_pure]
          exact ih _

/-- Claim C10: the rows the barrier gap search examines are
`y+1 … min(y+3, H−1)` regardless of the gravity sign — two grids that
agree on those rows produce identical gap-search results — while the
move the search contributes to `findBestPath` targets the row
`y + gravity`, i.e. the row ABOVE the source when gravity is −1, a row
the scan itself never examined. -/
theorem gap_scan_window (W H : ℤ) (g g' : Grid) (x y t : ℤ)
    (hagree : ∀ cx r, r ∈ gapWindow H y → getCell g cx r = getCell g' cx r) :
    findGapInBarrier W H g x y t = findGapInBarrier W H g' x y t ∧
    (∀ (gravity : ℤ) (friction : Frac) (rng : Rng) (mv : Move) (rng2 : Rng),
      0 ≤ y → y < H →
      findBestPath W H g x y gravity friction rng = some (some mv, rng2) →
      mv.mtype = MoveType.gap → mv.y = y + gravity) := by
  constructor
  · unfold findGapInBarrier
    rw [gapFold_congr hagree [-3, -2, -1, 1, 2, 3] []]
  · intro gravity friction rng mv rng2 hy0 hyH h hgap
    exact (findBestPath_spec hy0 hyH h).2.2.2 hgap

theorem gap_scan_window_witness :
    findGapInBarrier 1 2 [[sandHeavy], [empty]] 0 0 1
      = findGapInBarrier 1 2 [[water], [empty]] 0 0 1 ∧
    (∀ (gravity : ℤ) (friction : Frac) (rng : Rng) (mv : Move) (rng2 : Rng),
      0 ≤ (0 : ℤ) → (0 : ℤ) < 2 →
      findBestPath 1 2 [[sandHeavy], [empty]] 0 0 gravity friction rng
        = some (some mv, rng2) →
      mv.mtype = MoveType.gap → mv.y = 0 + gravity) :=
  gap_scan_window 1 2 [[sandHeavy], [empty]] [[water], [empty]] 0 0 1
    (fun cx r hr => by
      have hr1 : r = 1 := by
        have := mem_intRange.mp hr
        omega
      rw [hr1]
      rfl)
